import Mathlib

/-!
# Batched linear solve (gesv): validation, broadcasting, solve loop, status aggregation

A shallow embedding of `aten/src/ATen/native/Gesv.h` and `aten/src/ATen/native/Gesv.cpp`.

Conventions of the embedding

* A C++ function that can raise through `AT_ERROR` returns `Except GesvError _`; each
  constructor of `GesvError` stands for one `AT_ERROR` call site and carries the values
  that call site formats into its message, in the order it formats them.
* `scalar_t` is the type parameter `α`: the definitions embed the instantiation that
  `AT_DISPATCH_FLOATING_TYPES` selects for a floating tensor in a build with `USE_LAPACK`.
  The external routine (`sgesv_` / `dgesv_`) is a parameter `kernel` of every function
  that reaches it.
* Sizes, strides and element offsets are `Nat` (they are non-negative `int64_t` values
  bounded by the size of an allocated storage); kernel statuses and the `int` arguments
  of the kernel are `Int`, the `int64_t` to `int` conversion being `narrowInt` and the
  negation of an `int64_t` being `negInt64`.
* A tensor passed by reference and mutated is returned in the result; the list of kernel
  invocations made so far is threaded explicitly.
-/

namespace Gesv

/-! ## Errors -/

/-- Failures raised by the code, one constructor per `AT_ERROR` call site. -/
inductive GesvError where
  /-- Gesv.h line 9: "A must be batches of square matrices, but they are %lld by %lld
  matrices", formatted with `A.size(-1)`, `A.size(-2)`. -/
  | notSquareBatched (last secondLast : Nat)
  /-- Gesv.h line 13: "A must be a square matrix, but is %lld by %lld", formatted with
  `A.size(-1)`, `A.size(-2)`. -/
  | notSquareSingle (last secondLast : Nat)
  /-- Gesv.h line 19: "Incompatible matrix sizes for matmul: ...", formatted with
  `A.size(-1)`, `A.size(-1)`, `self.size(-2)`, `self.size(-1)`. -/
  | incompatibleMatmul (aLast aLast2 bSecondLast bLast : Nat)
  /-- Gesv.h line 24: "A,B size incompatible - A has %ld rows, B has %ld cols", formatted
  with `A.size(0)`, `self.size(0)`. -/
  | sizeIncompatible (aLeading bLeading : Nat)
  /-- Gesv.h line 33: "gesv: For batch %lld: Argument %lld has illegal value", formatted
  with the index `i` and `-info`. -/
  | illegalArgument (batch : Nat) (argument : Int)
  /-- Gesv.h line 36: "gesv: For batch %lld: U(%lld,%lld) is zero, singular U.", formatted
  with the index `i`, `info`, `info`. -/
  | singularMatrix (batch : Nat) (row col : Int)
  /-- Gesv.cpp line 140: "torch.gesv() with the out keyword does not support batching",
  formatted with `self.dim()`, `A.dim()`. -/
  | unsupportedBatching (bDim aDim : Nat)
  /-- Raised by `Tensor::size` for a dimension index outside `[-rank, rank)`. -/
  | dimOutOfRange (d : Int) (rank : Nat)
  /-- Raised by the broadcasting utility for two sizes that differ and are both not 1. -/
  | broadcastMismatch (a b : Nat)
  deriving DecidableEq, Repr

deriving instance DecidableEq for Except

/-! ## Error aggregator (`Gesv.h`, `checkErrors`) -/

/-- The expression `-info` on an `int64_t`: the negation reduced to 64 bits. It is the
exact negation of every 64-bit value except `-2^63`, which it leaves unchanged. -/
def negInt64 (x : Int) : Int :=
  (-x + 2 ^ 63) % 2 ^ 64 - 2 ^ 63

/-- The loop of `checkErrors` from position `i` on, over the entries not yet scanned.
Entries are `int64_t` in the source, and the argument position it formats is the 64-bit
`-info`. -/
def checkErrorsFrom (i : Nat) : List Int → Except GesvError Unit
  | [] => .ok ()
  | info :: rest =>
    if info < 0 then
      .error (.illegalArgument i (negInt64 info))
    else if info > 0 then
      .error (.singularMatrix i info info)
    else
      checkErrorsFrom (i + 1) rest

/-- `checkErrors(std::vector<int64_t> infos)`: scan from index 0. -/
def checkErrors (infos : List Int) : Except GesvError Unit :=
  checkErrorsFrom 0 infos

/-- The failure that the two branches of `checkErrors` raise for a non-zero status `info`
found at index `i`. -/
def statusError (i : Nat) (info : Int) : GesvError :=
  if info < 0 then .illegalArgument i (negInt64 info) else .singularMatrix i info info

/-! ## Tensors -/

/-- A strided tensor: extents, strides (in elements) and the flat storage that
`data<scalar_t>()` points to (storage offset 0). -/
structure Tensor (α : Type) where
  sizes : List Nat
  strides : List Nat
  storage : List α
  deriving DecidableEq, Repr

/-- `Tensor::dim()` / `ndimension()`: the rank. -/
def Tensor.dim {α : Type} (t : Tensor α) : Nat :=
  t.sizes.length

/-- Modelled from the spec: `Tensor::size(d)` is declared in `ATen/ATen.h`, which is
not among the sources. Section 4.1 reads `size(-1)` as the trailing dimension, `size(-2)`
as the second-to-last one and `size(0)` as the leading one; an index outside
`[-rank, rank)` raises. -/
def Tensor.size {α : Type} (t : Tensor α) (d : Int) : Except GesvError Nat :=
  if 0 ≤ d ∧ d < t.dim then
    .ok (t.sizes.getD d.toNat 0)
  else if d < 0 ∧ -(t.dim : Int) ≤ d then
    .ok (t.sizes.getD (d + t.dim).toNat 0)
  else
    .error (.dimOutOfRange d t.dim)

/-- Row-major strides of a contiguous tensor of the given extents. -/
def contiguousStrides : List Nat → List Nat
  | [] => []
  | _ :: rest => rest.prod :: contiguousStrides rest

/-- All multi-indices of the given extents, last index varying fastest. -/
def indices : List Nat → List (List Nat)
  | [] => [[]]
  | s :: rest => (List.range s).flatMap (fun i => (indices rest).map (fun ix => i :: ix))

/-- Element offset of a multi-index under the given strides. -/
def offsetOf (strides idx : List Nat) : Nat :=
  (List.zipWith (fun s i => s * i) strides idx).sum

/-- Exchange the last two entries of a list of length at least two. -/
def swapLastTwo (l : List Nat) : List Nat :=
  match l.reverse with
  | x :: y :: rest => (y :: x :: rest).reverse
  | _ => l

/-- Modelled from the spec: `transpose(-2, -1)` of the tensor abstraction (section 4.3,
4.7: "transpose"): a view with the last two extents and strides exchanged. -/
def Tensor.transposeLast {α : Type} (t : Tensor α) : Tensor α :=
  { sizes := swapLastTwo t.sizes, strides := swapLastTwo t.strides, storage := t.storage }

/-- Modelled from the spec: `Tensor::t()`, the transpose of a 2-D tensor (section 4.7). -/
def Tensor.t {α : Type} (t : Tensor α) : Tensor α :=
  t.transposeLast

/-- Modelled from the spec: `Tensor::clone()` of the tensor abstraction ("copy",
section 4.7): a fresh contiguous row-major tensor with the same logical elements. -/
def Tensor.clone {α : Type} [Inhabited α] (t : Tensor α) : Tensor α :=
  { sizes := t.sizes
    strides := contiguousStrides t.sizes
    storage := (indices t.sizes).map (fun ix => t.storage.getD (offsetOf t.strides ix) default) }

/-- Modelled from the spec: `self.view({bx, by})` as used by the single-matrix path,
where `self` is 2-D of extents `(bx, by)` or 1-D of extent `bx` with `by = 1`; the view
shares the storage, a 1-D operand gaining a trailing column axis. -/
def Tensor.view2 {α : Type} (t : Tensor α) (bx by_ : Nat) : Tensor α :=
  { sizes := [bx, by_]
    strides := if t.strides.length = 1 then t.strides ++ [1] else t.strides
    storage := t.storage }

/-- Modelled from the spec: the shared broadcasting utility `infer_size`
(`ATen/ExpandUtils.h`, not among the sources), on the reversed shapes. Section 4.2:
sizes of 1 stretch to match, equal sizes are kept, a missing leading dimension counts
as 1, any other pair is an error. -/
def inferSizeRev : List Nat → List Nat → Except GesvError (List Nat)
  | [], bs => .ok bs
  | as, [] => .ok as
  | a :: as, b :: bs =>
    if a = b ∨ a = 1 ∨ b = 1 then
      match inferSizeRev as bs with
      | .ok rest => .ok ((if a = 1 then b else a) :: rest)
      | .error e => .error e
    else
      .error (.broadcastMismatch a b)

/-- Modelled from the spec: `infer_size(a, b)`, the broadcast of two shapes aligned at
their trailing ends (section 4.2). -/
def infer_size (a b : List Nat) : Except GesvError (List Nat) :=
  match inferSizeRev a.reverse b.reverse with
  | .ok r => .ok r.reverse
  | .error e => .error e

/-- Strides of an expanded view, on reversed lists: a stretched or new dimension gets
stride 0, a kept one keeps its stride. -/
def expandStridesRev : List Nat → List Nat → List Nat → Except GesvError (List Nat)
  | _, _, [] => .ok []
  | s :: ss, st :: sts, target :: ts =>
    if s = target then
      match expandStridesRev ss sts ts with
      | .ok rest => .ok (st :: rest)
      | .error e => .error e
    else if s = 1 then
      match expandStridesRev ss sts ts with
      | .ok rest => .ok (0 :: rest)
      | .error e => .error e
    else
      .error (.broadcastMismatch s target)
  | _, _, _ :: ts =>
    match expandStridesRev [] [] ts with
    | .ok rest => .ok (0 :: rest)
    | .error e => .error e

/-- Modelled from the spec: `Tensor::expand(sizes)` (section 4.2): a logical view of the
requested extents that shares the storage; no data is copied. -/
def Tensor.expand {α : Type} (t : Tensor α) (target : List Nat) : Except GesvError (Tensor α) :=
  match expandStridesRev t.sizes.reverse t.strides.reverse target.reverse with
  | .ok st => .ok { sizes := target, strides := st.reverse, storage := t.storage }
  | .error e => .error e

/-- Modelled from the spec: `batchCount` (`ATen/native/LinearAlgebraUtils.h`, not among
the sources): the number of matrices, the product of all extents but the trailing two. -/
def batchCount {α : Type} (t : Tensor α) : Nat :=
  (t.sizes.take (t.dim - 2)).prod

/-- Modelled from the spec: `matrixStride` (`ATen/native/LinearAlgebraUtils.h`, not among
the sources): the number of elements of one matrix, `size(-1) * size(-2)`. -/
def matrixStride {α : Type} (t : Tensor α) : Except GesvError Nat :=
  match t.size (-1), t.size (-2) with
  | .ok c, .ok r => .ok (c * r)
  | .error e, _ => .error e
  | _, .error e => .error e

/-- Modelled from the spec: the layout normalizer `cloneBatchedColumnMajor`
(`ATen/native/LinearAlgebraUtils.h`, not among the sources), section 4.3: a fresh tensor
of the same logical shape, contiguous, each matrix column-major (row stride 1, column
stride = rows), batch dimensions in their natural order. -/
def cloneBatchedColumnMajor {α : Type} [Inhabited α] (t : Tensor α) : Tensor α :=
  t.transposeLast.clone.transposeLast

/-! ## Input validator (`Gesv.h`, `checkInputs`) -/

/-- `checkInputs(self, A, batched)`. The first `if` compares `A.size(-1)` with
`A.size(-2)`; the second statement is one `if ... else if ...` chain whose `else if`
branch is reached whenever `batched && A.size(-1) != self.size(-2)` is false. -/
def checkInputs {α : Type} (self A : Tensor α) (batched : Bool) : Except GesvError Unit := do
  let aLast ← A.size (-1)
  let aSecondLast ← A.size (-2)
  if aLast ≠ aSecondLast then
    if batched then
      throw (.notSquareBatched aLast aSecondLast)
    else
      throw (.notSquareSingle aLast aSecondLast)
  -- `batched && A.size(-1) != self.size(-2)`: the right operand is evaluated only when
  -- `batched` holds
  let mismatch ← (if batched then do
      let bSecondLast ← self.size (-2)
      pure (decide (aLast ≠ bSecondLast))
    else pure false : Except GesvError Bool)
  if mismatch then
    let bSecondLast ← self.size (-2)
    let bLast ← self.size (-1)
    throw (.incompatibleMatmul aLast aLast bSecondLast bLast)
  else
    let a0 ← A.size 0
    let b0 ← self.size 0
    if a0 ≠ b0 then
      throw (.sizeIncompatible a0 b0)
    else
      pure ()

/-! ## Native kernel adapter -/

/-- Conversion of an `int64_t` value to the `int` parameter of `lapackGesv`. -/
def narrowInt (x : Int) : Int :=
  (x + 2 ^ 31) % 2 ^ 32 - 2 ^ 31

/-- What one call `lapackGesv<scalar_t>(n, nrhs, a, lda, ipiv, b, ldb, &info)` hands to
the external routine. The pointers `a` and `b` are given as the windows the routine may
touch under its contract (section 6): `lda * n` elements from `a`, `ldb * nrhs` from `b`. -/
structure LapackArgs (α : Type) where
  n : Int
  nrhs : Int
  a : List α
  lda : Int
  ipiv : List Int
  b : List α
  ldb : Int
  deriving DecidableEq, Repr

/-- What the external routine leaves behind: the new contents of its three buffers and
the status written through `info`. -/
structure LapackOut (α : Type) where
  a : List α
  ipiv : List Int
  b : List α
  info : Int
  deriving DecidableEq, Repr

/-- The external solve routine (`sgesv_` / `dgesv_`), a parameter of the embedding. -/
abbrev Kernel (α : Type) := LapackArgs α → LapackOut α

/-- `lapackGesv<scalar_t>(n, nrhs, a, lda, ipiv, b, ldb, info)` for `scalar_t` one of
`float`, `double`: the arguments are forwarded unchanged to `sgesv_` / `dgesv_`. (The
unspecialised template, which raises "gesv only takes float or double Tensors", is never
selected by the dispatch over floating types.) -/
def lapackGesv {α : Type} (kernel : Kernel α) (args : LapackArgs α) : LapackOut α :=
  kernel args

/-- One recorded kernel invocation: the element offsets of the two pointers inside the
storages of A and b, and the arguments. -/
structure Invocation (α : Type) where
  aOffset : Nat
  bOffset : Nat
  args : LapackArgs α
  deriving DecidableEq, Repr

/-- The `len` cells of `buf` starting at element offset `off`. -/
def window {α : Type} (buf : List α) (off len : Nat) : List α :=
  (buf.drop off).take len

/-- The buffer after the routine has written `w` over the window at `off`: cells the
routine returned replace the old ones, the buffer keeps its length. -/
def overwrite {α : Type} (buf : List α) (off len : Nat) (w : List α) : List α :=
  let old := window buf off len
  buf.take off ++ (w.take old.length ++ old.drop w.length) ++ buf.drop (off + len)

/-! ## Batch solver loop (`Gesv.cpp`, `applyGesv`) -/

/-- The variables of `applyGesv` during its loop: the two tensors it received by
reference, its own `infos` (received by value), the pivot buffer, and the kernel
invocations made so far. -/
structure LoopState (α : Type) where
  b : Tensor α
  A : Tensor α
  infos : List Int
  ipiv : List Int
  calls : List (Invocation α)
  deriving DecidableEq, Repr

/-- The arguments of the call `lapackGesv<scalar_t>(n, nrhs, A_working_ptr, n,
ipiv.data<int>(), b_working_ptr, n, &info)` of iteration `i`, where
`A_working_ptr = &A_data[i * A_mat_stride]` and `b_working_ptr = &b_data[i * b_mat_stride]`. -/
def loopArgs {α : Type} (A_mat_stride b_mat_stride n nrhs i : Nat) (st : LoopState α) :
    LapackArgs α :=
  { n := narrowInt n
    nrhs := narrowInt nrhs
    a := window st.A.storage (i * A_mat_stride) ((narrowInt n).toNat * (narrowInt n).toNat)
    lda := narrowInt n
    ipiv := st.ipiv
    b := window st.b.storage (i * b_mat_stride) ((narrowInt n).toNat * (narrowInt nrhs).toNat)
    ldb := narrowInt n }

/-- The variables after the kernel call of iteration `i` and the assignment
`infos[i] = info`. -/
def loopStep {α : Type} (kernel : Kernel α) (A_mat_stride b_mat_stride n nrhs i : Nat)
    (st : LoopState α) : LoopState α :=
  let args := loopArgs A_mat_stride b_mat_stride n nrhs i st
  let out := lapackGesv kernel args
  { b := { st.b with storage := overwrite st.b.storage (i * b_mat_stride) args.b.length out.b }
    A := { st.A with storage := overwrite st.A.storage (i * A_mat_stride) args.a.length out.a }
    infos := st.infos.set i out.info
    ipiv := overwrite st.ipiv 0 st.ipiv.length out.ipiv
    calls := st.calls ++
      [{ aOffset := i * A_mat_stride, bOffset := i * b_mat_stride, args := args }] }

/-- The `for (int64_t i = 0; i < batch_size; i++)` loop of `applyGesv`, with `remaining`
iterations to go from index `i`: call the kernel, store the status in `infos[i]`, and
return at once when the status is non-zero. -/
def applyGesvLoop {α : Type} (kernel : Kernel α) (A_mat_stride b_mat_stride n nrhs : Nat) :
    Nat → Nat → LoopState α → LoopState α
  | 0, _, st => st
  | remaining + 1, i, st =>
    let info := (lapackGesv kernel (loopArgs A_mat_stride b_mat_stride n nrhs i st)).info
    let st1 := loopStep kernel A_mat_stride b_mat_stride n nrhs i st
    if info ≠ 0 then
      st1
    else
      applyGesvLoop kernel A_mat_stride b_mat_stride n nrhs remaining (i + 1) st1

/-- `applyGesv<scalar_t>(Tensor& b, Tensor& A, std::vector<int64_t> infos)`. The tensors
are reference parameters, so their final values are part of the result; `infos` is a value
parameter, so the `infos` field of the result is the final value of the private copy of
the function and the vector of the caller is not changed by the call. The pivot buffer
`at::empty({n})` starts as `n` cells (zeros stand for its unspecified contents). -/
def applyGesv {α : Type} (kernel : Kernel α) (b A : Tensor α) (infos : List Int) :
    Except GesvError (LoopState α) := do
  let A_mat_stride ← matrixStride A
  let b_mat_stride ← matrixStride b
  let batch_size := batchCount A
  let n ← A.size (-2)
  let nrhs ← b.size (-1)
  let ipiv := List.replicate n (0 : Int)
  pure (applyGesvLoop kernel A_mat_stride b_mat_stride n nrhs batch_size 0
    { b := b, A := A, infos := infos, ipiv := ipiv, calls := [] })

/-! ## Entry points (`Gesv.cpp`) -/

/-- What a solve call did: the kernel invocations it made, and either the error it raised
or the value it returned. -/
structure Outcome (α β : Type) where
  calls : List (Invocation α)
  result : Except GesvError β
  deriving Repr

/-- The arguments of the call `lapackGesv<scalar_t>(bx, by, A_ptr, bx, ipiv.data<int>(),
b_ptr, bx, &info)` of `_gesv_single_helper`, where `A_ = A.t().clone()`,
`b_ = self.view({bx, by}).t().clone()` and `ipiv = at::empty({bx})`. -/
def singleArgs {α : Type} [Inhabited α] (self A : Tensor α) (bx by_ : Nat) : LapackArgs α :=
  let A_ := A.t.clone
  let b_ := (self.view2 bx by_).t.clone
  { n := narrowInt bx
    nrhs := narrowInt by_
    a := window A_.storage 0 ((narrowInt bx).toNat * (narrowInt bx).toNat)
    lda := narrowInt bx
    ipiv := List.replicate bx (0 : Int)
    b := window b_.storage 0 ((narrowInt bx).toNat * (narrowInt by_).toNat)
    ldb := narrowInt bx }

/-- The pair `(b_.t(), A_.t())` that `_gesv_single_helper` returns, `A_` and `b_` being
the two copies after the kernel has written into them. -/
def singleResult {α : Type} [Inhabited α] (kernel : Kernel α) (self A : Tensor α)
    (bx by_ : Nat) : Tensor α × Tensor α :=
  let A_ := A.t.clone
  let b_ := (self.view2 bx by_).t.clone
  let args := singleArgs self A bx by_
  let out := lapackGesv kernel args
  let A1 : Tensor α := { A_ with storage := overwrite A_.storage 0 args.a.length out.a }
  let b1 : Tensor α := { b_ with storage := overwrite b_.storage 0 args.b.length out.b }
  (b1.t, A1.t)

/-- `_gesv_single_helper(self, A)`: `bx = self.size(0)`, `by = 1` for a 1-D `self` and
`self.size(1)` otherwise, one kernel call on the transposed copies, `checkErrors({info})`,
then the pair `(b_.t(), A_.t())`. -/
def _gesv_single_helper {α : Type} [Inhabited α] (kernel : Kernel α) (self A : Tensor α) :
    Outcome α (Tensor α × Tensor α) :=
  match self.size 0 with
  | .error e => { calls := [], result := .error e }
  | .ok bx =>
    match (if self.dim = 1 then .ok 1 else self.size 1 : Except GesvError Nat) with
    | .error e => { calls := [], result := .error e }
    | .ok by_ =>
      let args := singleArgs self A bx by_
      let info := (lapackGesv kernel args).info
      let calls : List (Invocation α) := [{ aOffset := 0, bOffset := 0, args := args }]
      match checkErrors [info] with
      | .error e => { calls := calls, result := .error e }
      | .ok () => { calls := calls, result := .ok (singleResult kernel self A bx by_) }

/-- `_gesv_helper_cpu(self, A)`: a zero status vector with one entry per matrix of `A`,
the two column-major working copies, `applyGesv` on them, `checkErrors(infos)` on the
vector of this function, then the pair of working copies. -/
def _gesv_helper_cpu {α : Type} [Inhabited α] (kernel : Kernel α) (self A : Tensor α) :
    Outcome α (Tensor α × Tensor α) :=
  let infos := List.replicate (batchCount A) (0 : Int)
  let A_working_copy := cloneBatchedColumnMajor A
  let b_working_copy := cloneBatchedColumnMajor self
  match applyGesv kernel b_working_copy A_working_copy infos with
  | .error e => { calls := [], result := .error e }
  | .ok st =>
    -- `infos` was passed by value: the vector checked here is the one built above
    match checkErrors infos with
    | .error e => { calls := st.calls, result := .error e }
    | .ok () => { calls := st.calls, result := .ok (st.b, st.A) }

/-- `gesv(self, A)`: validation, then the single-matrix path when both ranks are at most
2, else broadcasting of the batch prefixes and the batched helper
(`self.type()._gesv_helper`, which for the CPU type is `_gesv_helper_cpu`). -/
def gesv {α : Type} [Inhabited α] (kernel : Kernel α) (self A : Tensor α) :
    Outcome α (Tensor α × Tensor α) :=
  let batched := !(decide (self.dim ≤ 2) && decide (A.dim ≤ 2))
  match checkInputs self A batched with
  | .error e => { calls := [], result := .error e }
  | .ok () =>
    if !batched then
      _gesv_single_helper kernel self A
    else
      let self_batch_sizes := self.sizes.take (self.dim - 2)
      let A_batch_sizes := A.sizes.take (A.dim - 2)
      match infer_size self_batch_sizes A_batch_sizes with
      | .error e => { calls := [], result := .error e }
      | .ok expand_batch_portion =>
        match self.size (-2), self.size (-1), A.size (-2), A.size (-1) with
        | .ok s2, .ok s1, .ok a2, .ok a1 =>
          let self_expand_size := expand_batch_portion ++ [s2, s1]
          let A_expand_size := expand_batch_portion ++ [a2, a1]
          match self.expand self_expand_size, A.expand A_expand_size with
          | .ok self_broadcasted, .ok A_broadcasted =>
            _gesv_helper_cpu kernel self_broadcasted A_broadcasted
          | .error e, _ => { calls := [], result := .error e }
          | _, .error e => { calls := [], result := .error e }
        | .error e, _, _, _ => { calls := [], result := .error e }
        | _, .error e, _, _ => { calls := [], result := .error e }
        | _, _, .error e, _ => { calls := [], result := .error e }
        | _, _, _, .error e => { calls := [], result := .error e }

/-- `gesv_out(solution, lu, self, A)`: the rank test, then
`return at::_th_gesv_single_out(solution, lu, self, A)`. The single-matrix out path is
outside the sources and is the parameter `th_gesv_single_out`. -/
def gesv_out {σ ρ α : Type}
    (th_gesv_single_out : σ → σ → Tensor α → Tensor α → Except GesvError ρ)
    (solution lu : σ) (self A : Tensor α) : Except GesvError ρ :=
  if self.dim > 2 ∨ A.dim > 2 then
    .error (.unsupportedBatching self.dim A.dim)
  else
    th_gesv_single_out solution lu self A

/-! ## The run of the batch loop, iteration by iteration -/

/-- The variables of `applyGesv` after `k` kernel calls (the bodies of the iterations
`0, ..., k-1` of its loop), starting from `st0`. -/
def stateAfter {α : Type} (kernel : Kernel α) (A_mat_stride b_mat_stride n nrhs : Nat)
    (st0 : LoopState α) : Nat → LoopState α
  | 0 => st0
  | k + 1 => loopStep kernel A_mat_stride b_mat_stride n nrhs k
      (stateAfter kernel A_mat_stride b_mat_stride n nrhs st0 k)

/-- The status the kernel returns when iteration `i` of the loop calls it. -/
def statusAt {α : Type} (kernel : Kernel α) (A_mat_stride b_mat_stride n nrhs : Nat)
    (st0 : LoopState α) (i : Nat) : Int :=
  (lapackGesv kernel (loopArgs A_mat_stride b_mat_stride n nrhs i
    (stateAfter kernel A_mat_stride b_mat_stride n nrhs st0 i))).info

/-- The invocation that iteration `i` of the loop records. -/
def callAt {α : Type} (kernel : Kernel α) (A_mat_stride b_mat_stride n nrhs : Nat)
    (st0 : LoopState α) (i : Nat) : Invocation α :=
  { aOffset := i * A_mat_stride
    bOffset := i * b_mat_stride
    args := loopArgs A_mat_stride b_mat_stride n nrhs i
      (stateAfter kernel A_mat_stride b_mat_stride n nrhs st0 i) }

/-! ## A concrete kernel, used to evaluate the code on concrete inputs -/

/-- A kernel for order-1 systems over the integers with a unit or zero coefficient: a
zero coefficient is a zero pivot `U(1,1)` (status 1, nothing solved); otherwise the
solution is `b * a` (for `a = 1` or `a = -1` this is `b / a`), the pivot is row 1 and the
status is 0. -/
def unitKernel : Kernel Int := fun c =>
  if c.a.headD 0 = 0 then
    { a := c.a, ipiv := c.ipiv, b := c.b, info := 1 }
  else
    { a := c.a, ipiv := [1], b := c.b.map (fun x => x * c.a.headD 0), info := 0 }

/-- The 1-by-1 matrix [-1]. -/
def mat1 : Tensor Int := ⟨[1, 1], [1, 1], [-1]⟩

/-- The 1-by-2 right-hand side [5, 6]. -/
def rhs12 : Tensor Int := ⟨[1, 2], [2, 1], [5, 6]⟩

/-- The batch of the three 1-by-1 matrices [1], [0], [-1] (shape (3,1,1)). -/
def mats3 : Tensor Int := ⟨[3, 1, 1], [1, 1, 1], [1, 0, -1]⟩

/-- The batch of the three 1-by-1 right-hand sides [5], [6], [7] (shape (3,1,1)). -/
def rhs3 : Tensor Int := ⟨[3, 1, 1], [1, 1, 1], [5, 6, 7]⟩

/-- The two 1-by-1 matrices [1], [-1] with batch shape (2,1) (shape (2,1,1,1)). -/
def mats21 : Tensor Int := ⟨[2, 1, 1, 1], [1, 1, 1, 1], [1, -1]⟩

/-- Six 1-by-1 right-hand sides with batch shape (2,3) (shape (2,3,1,1)). -/
def rhs23 : Tensor Int := ⟨[2, 3, 1, 1], [3, 1, 1, 1], [1, 2, 3, 4, 5, 6]⟩

/-! ## Properties of the error aggregator -/

theorem checkErrorsFrom_ok_iff (i : Nat) (infos : List Int) :
    checkErrorsFrom i infos = .ok () ↔ ∀ x ∈ infos, x = 0 := by
  induction infos generalizing i with
  | nil => simp [checkErrorsFrom]
  | cons x xs ih =>
    unfold checkErrorsFrom
    by_cases hneg : x < 0
    · simp only [hneg, if_true]
      constructor
      · intro h; cases h
      · intro h
        have := h x (List.mem_cons_self x xs)
        omega
    · by_cases hpos : x > 0
      · simp only [hneg, hpos, if_true, if_false]
        constructor
        · intro h; cases h
        · intro h
          have := h x (List.mem_cons_self x xs)
          omega
      · simp only [hneg, hpos, if_false]
        have hx : x = 0 := by omega
        rw [ih (i + 1)]
        simp [hx]

theorem checkErrorsFrom_least (i : Nat) (infos : List Int) (k : Nat)
    (hk : k < infos.length) (hne : infos.getD k 0 ≠ 0)
    (hz : ∀ j, j < k → infos.getD j 0 = 0) :
    checkErrorsFrom i infos = .error (statusError (i + k) (infos.getD k 0)) := by
  induction infos generalizing i k with
  | nil => simp at hk
  | cons x xs ih =>
    cases k with
    | zero =>
      simp only [List.getD_cons_zero] at hne ⊢
      unfold checkErrorsFrom statusError
      by_cases hneg : x < 0
      · simp [hneg]
      · have hpos : x > 0 := by omega
        simp [hneg, hpos]
    | succ k =>
      have hx : x = 0 := by simpa using hz 0 (Nat.succ_pos k)
      unfold checkErrorsFrom
      simp only [hx, lt_irrefl, gt_iff_lt, if_false]
      simp only [List.getD_cons_succ] at hne ⊢
      have hk2 : k < xs.length := by simpa using hk
      have hz2 : ∀ j, j < k → xs.getD j 0 = 0 := by
        intro j hj
        simpa using hz (j + 1) (Nat.succ_lt_succ hj)
      rw [ih (i + 1) k hk2 hne hz2]
      congr 2
      omega

theorem exists_least_nonzero (infos : List Int) (h : ¬ ∀ x ∈ infos, x = 0) :
    ∃ k, k < infos.length ∧ infos.getD k 0 ≠ 0 ∧ ∀ j, j < k → infos.getD j 0 = 0 := by
  induction infos with
  | nil => simp at h
  | cons x xs ih =>
    by_cases hx : x = 0
    · have h2 : ¬ ∀ y ∈ xs, y = 0 := by
        intro hall
        apply h
        intro y hy
        rcases List.mem_cons.mp hy with rfl | hy
        · exact hx
        · exact hall y hy
      obtain ⟨k, hk, hne, hz⟩ := ih h2
      refine ⟨k + 1, by simpa using hk, by simpa using hne, ?_⟩
      intro j hj
      cases j with
      | zero => simpa using hx
      | succ j => simpa using hz j (by omega)
    · exact ⟨0, by simp, by simpa using hx, by intro j hj; omega⟩

theorem negInt64_of_ne_min (x : Int) (h1 : -2 ^ 63 < x) (h2 : x < 2 ^ 63) :
    negInt64 x = -x := by
  unfold negInt64
  omega

theorem getD_mem_of_lt (infos : List Int) (i : Nat) (h : i < infos.length) :
    infos.getD i 0 ∈ infos := by
  rw [List.getD_eq_getElem infos 0 h]
  exact List.getElem_mem h

/-- C2: for every status vector whose entries are 64-bit values other than `-2^63` (as
every kernel status, a C `int`, is), `checkErrors` succeeds exactly when every entry is 0;
on any other vector it fails at the least index `i` holding a non-zero entry, with
`illegalArgument i (-infos[i])` when that entry is negative and
`singularMatrix i infos[i] infos[i]` when it is positive. -/
theorem checkErrors_first_nonzero (infos : List Int)
    (hrange : ∀ x ∈ infos, -2 ^ 63 < x ∧ x < 2 ^ 63) :
    (checkErrors infos = .ok () ↔ ∀ x ∈ infos, x = 0) ∧
    ((¬ ∀ x ∈ infos, x = 0) →
      ∃ i, i < infos.length ∧ infos.getD i 0 ≠ 0 ∧ (∀ j, j < i → infos.getD j 0 = 0) ∧
        checkErrors infos =
          .error (if infos.getD i 0 < 0 then GesvError.illegalArgument i (-(infos.getD i 0))
                  else GesvError.singularMatrix i (infos.getD i 0) (infos.getD i 0))) ∧
    (∀ i, i < infos.length → infos.getD i 0 ≠ 0 → (∀ j, j < i → infos.getD j 0 = 0) →
        checkErrors infos =
          .error (if infos.getD i 0 < 0 then GesvError.illegalArgument i (-(infos.getD i 0))
                  else GesvError.singularMatrix i (infos.getD i 0) (infos.getD i 0))) := by
  have key : ∀ i, i < infos.length → infos.getD i 0 ≠ 0 →
      (∀ j, j < i → infos.getD j 0 = 0) →
        checkErrors infos =
          .error (if infos.getD i 0 < 0 then GesvError.illegalArgument i (-(infos.getD i 0))
                  else GesvError.singularMatrix i (infos.getD i 0) (infos.getD i 0)) := by
    intro i hi hne hz
    have h := checkErrorsFrom_least 0 infos i hi hne hz
    obtain ⟨hlo, hhi⟩ := hrange _ (getD_mem_of_lt infos i hi)
    rw [checkErrors, h, statusError, Nat.zero_add, negInt64_of_ne_min _ hlo hhi]
  refine ⟨checkErrorsFrom_ok_iff 0 infos, ?_, key⟩
  intro h
  obtain ⟨k, hk, hne, hz⟩ := exists_least_nonzero infos h
  exact ⟨k, hk, hne, hz, key k hk hne hz⟩

/-- Witness for `checkErrors_first_nonzero`: the vector [0, -4, 3]. -/
theorem checkErrors_first_nonzero_witness :
    (checkErrors [0, -4, 3] = .ok () ↔ ∀ x ∈ [(0 : Int), -4, 3], x = 0) ∧
    ((¬ ∀ x ∈ [(0 : Int), -4, 3], x = 0) →
      ∃ i, i < [(0 : Int), -4, 3].length ∧ [(0 : Int), -4, 3].getD i 0 ≠ 0 ∧
        (∀ j, j < i → [(0 : Int), -4, 3].getD j 0 = 0) ∧
        checkErrors [0, -4, 3] =
          .error (if [(0 : Int), -4, 3].getD i 0 < 0
                  then GesvError.illegalArgument i (-([(0 : Int), -4, 3].getD i 0))
                  else GesvError.singularMatrix i ([(0 : Int), -4, 3].getD i 0)
                    ([(0 : Int), -4, 3].getD i 0))) ∧
    (∀ i, i < [(0 : Int), -4, 3].length → [(0 : Int), -4, 3].getD i 0 ≠ 0 →
        (∀ j, j < i → [(0 : Int), -4, 3].getD j 0 = 0) →
        checkErrors [0, -4, 3] =
          .error (if [(0 : Int), -4, 3].getD i 0 < 0
                  then GesvError.illegalArgument i (-([(0 : Int), -4, 3].getD i 0))
                  else GesvError.singularMatrix i ([(0 : Int), -4, 3].getD i 0)
                    ([(0 : Int), -4, 3].getD i 0))) :=
  checkErrors_first_nonzero [0, -4, 3] (by decide)

/-- C3, as stated, fails: the vector `[1, -1]` contains a negative entry, yet
`checkErrors` fails with `singularMatrix` (index 0, pivot 1) and not with
`illegalArgument`, because the positive entry is scanned first. -/
theorem checkErrors_positive_before_negative :
    ((-1 : Int) ∈ [(1 : Int), -1] ∧ (-1 : Int) < 0) ∧
    checkErrors [1, -1] = .error (.singularMatrix 0 1 1) ∧
    ¬ ∃ i a, checkErrors [1, -1] = .error (.illegalArgument i a) := by
  refine ⟨by decide, by decide, ?_⟩
  rintro ⟨i, a, h⟩
  have h2 : checkErrors [1, -1] = .error (.singularMatrix 0 1 1) := by decide
  rw [h2] at h
  cases h

/-- C3 (amended): `checkErrors` fails with `illegalArgument` exactly when the vector has
a negative entry preceded only by zeros, whatever follows that entry, and with
`singularMatrix` exactly when it has a positive entry preceded only by zeros; so a vector
without negative entries and with a positive one fails with `singularMatrix`, and a
vector whose first non-zero entry is negative never does. -/
theorem checkErrors_kind_by_first_nonzero (infos : List Int) :
    ((∃ i a, checkErrors infos = .error (.illegalArgument i a)) ↔
      ∃ k, k < infos.length ∧ infos.getD k 0 < 0 ∧ ∀ j, j < k → infos.getD j 0 = 0) ∧
    ((∃ i r c, checkErrors infos = .error (.singularMatrix i r c)) ↔
      ∃ k, k < infos.length ∧ 0 < infos.getD k 0 ∧ ∀ j, j < k → infos.getD j 0 = 0) := by
  have key : ∀ k, k < infos.length → infos.getD k 0 ≠ 0 →
      (∀ j, j < k → infos.getD j 0 = 0) →
      checkErrors infos = .error (statusError k (infos.getD k 0)) := by
    intro k hk hne hz
    simpa [checkErrors] using checkErrorsFrom_least 0 infos k hk hne hz
  have notOk : ∀ e, checkErrors infos = .error e → ¬ ∀ x ∈ infos, x = 0 := by
    intro e he hall
    rw [checkErrors, (checkErrorsFrom_ok_iff 0 infos).mpr hall] at he
    cases he
  constructor
  · constructor
    · rintro ⟨i, a, h⟩
      obtain ⟨k, hk, hne, hz⟩ := exists_least_nonzero infos (notOk _ h)
      refine ⟨k, hk, ?_, hz⟩
      have h2 := key k hk hne hz
      rw [h] at h2
      by_contra hneg
      rw [statusError, if_neg hneg] at h2
      cases h2
    · rintro ⟨k, hk, hneg, hz⟩
      refine ⟨k, negInt64 (infos.getD k 0), ?_⟩
      rw [key k hk (by omega) hz, statusError, if_pos hneg]
  · constructor
    · rintro ⟨i, r, c, h⟩
      obtain ⟨k, hk, hne, hz⟩ := exists_least_nonzero infos (notOk _ h)
      refine ⟨k, hk, ?_, hz⟩
      have h2 := key k hk hne hz
      rw [h] at h2
      by_contra hpos
      have hneg : infos.getD k 0 < 0 := by omega
      rw [statusError, if_pos hneg] at h2
      cases h2
    · rintro ⟨k, hk, hpos, hz⟩
      refine ⟨k, infos.getD k 0, infos.getD k 0, ?_⟩
      have hneg : ¬ infos.getD k 0 < 0 := by omega
      rw [key k hk (by omega) hz, statusError, if_neg hneg]

/-! ## Properties of the input validator -/

theorem getD_append_pair (pre : List Nat) (r c : Nat) :
    (pre ++ [r, c]).getD pre.length 0 = r ∧ (pre ++ [r, c]).getD (pre.length + 1) 0 = c := by
  induction pre with
  | nil => simp
  | cons x xs ih => simpa using ih

theorem size_last {α : Type} (A : Tensor α) (pre : List Nat) (r c : Nat)
    (hA : A.sizes = pre ++ [r, c]) : A.size (-1) = .ok c := by
  have hdim : A.dim = pre.length + 2 := by simp [Tensor.dim, hA]
  unfold Tensor.size
  rw [hdim]
  have h1 : ¬ ((0 : Int) ≤ -1 ∧ (-1 : Int) < ((pre.length + 2 : Nat) : Int)) := by omega
  have h2 : ((-1 : Int) < 0 ∧ -(((pre.length + 2 : Nat) : Int)) ≤ -1) := by omega
  rw [if_neg h1, if_pos h2]
  have h3 : ((-1 : Int) + ((pre.length + 2 : Nat) : Int)).toNat = pre.length + 1 := by omega
  rw [h3, hA, (getD_append_pair pre r c).2]

theorem size_secondLast {α : Type} (A : Tensor α) (pre : List Nat) (r c : Nat)
    (hA : A.sizes = pre ++ [r, c]) : A.size (-2) = .ok r := by
  have hdim : A.dim = pre.length + 2 := by simp [Tensor.dim, hA]
  unfold Tensor.size
  rw [hdim]
  have h1 : ¬ ((0 : Int) ≤ -2 ∧ (-2 : Int) < ((pre.length + 2 : Nat) : Int)) := by omega
  have h2 : ((-2 : Int) < 0 ∧ -(((pre.length + 2 : Nat) : Int)) ≤ -2) := by omega
  rw [if_neg h1, if_pos h2]
  have h3 : ((-2 : Int) + ((pre.length + 2 : Nat) : Int)).toNat = pre.length := by omega
  rw [h3, hA, (getD_append_pair pre r c).1]

theorem size_zero {α : Type} (A : Tensor α) (x : Nat) (rest : List Nat)
    (hA : A.sizes = x :: rest) : A.size 0 = .ok x := by
  unfold Tensor.size
  have h1 : ((0 : Int) ≤ 0 ∧ (0 : Int) < (A.dim : Int)) := by
    simp [Tensor.dim, hA]
  rw [if_pos h1, hA]
  rfl

theorem checkInputs_of_not_square {α : Type} (self A : Tensor α) (batched : Bool)
    (pre : List Nat) (r c : Nat) (hA : A.sizes = pre ++ [r, c]) (hne : r ≠ c) :
    checkInputs self A batched =
      .error (if batched then .notSquareBatched c r else .notSquareSingle c r) := by
  have hcr : c ≠ r := fun h => hne h.symm
  unfold checkInputs
  rw [size_last A pre r c hA, size_secondLast A pre r c hA]
  cases batched <;> simp [hcr, bind, Except.bind, throw, throwThe, MonadExceptOf.throw]

theorem gesv_of_invalid {α : Type} [Inhabited α] (kernel : Kernel α) (self A : Tensor α)
    (e : GesvError)
    (h : checkInputs self A (!(decide (self.dim ≤ 2) && decide (A.dim ≤ 2))) = .error e) :
    gesv kernel self A = { calls := [], result := .error e } := by
  unfold gesv
  simp only [h]

/-- C4, evaluated: with the batched flag set, A of shape (1,2,2) (square) and B of shape
(3,2,2) (so that `A.size(-1) = B.size(-2) = 2`), `checkInputs` does not accept the pair:
the `else if` branch compares the leading dimensions 1 and 3 and raises the
size-incompatible error. -/
theorem checkInputs_batched_leading_mismatch :
    let A : Tensor Int := ⟨[1, 2, 2], [4, 2, 1], [1, 0, 0, 1]⟩
    let B : Tensor Int := ⟨[3, 2, 2], [4, 2, 1], [1, 2, 3, 4, 5, 6, 7, 8, 9, 10, 11, 12]⟩
    A.size (-1) = .ok 2 ∧ A.size (-2) = .ok 2 ∧ B.size (-2) = .ok 2 ∧
    checkInputs B A true = .error (.sizeIncompatible 1 3) := by
  decide

/-- C5, evaluated: for A of shape (1,n,n) and B of shape (k+2,n,m), contiguous, with any
contents, `gesv` fails validation with the size-incompatible error on the leading
dimensions 1 and k+2, and the kernel is never invoked; no broadcasting to batch size
k+2 takes place. -/
theorem gesv_rejects_broadcast_batch (kernel : Kernel Int) (n m k : Nat)
    (aData bData : List Int) :
    let A : Tensor Int := ⟨[1, n, n], [n * n, n, 1], aData⟩
    let B : Tensor Int := ⟨[k + 2, n, m], [n * m, m, 1], bData⟩
    (gesv kernel B A).result = .error (.sizeIncompatible 1 (k + 2)) ∧
    (gesv kernel B A).calls = [] := by
  intro A B
  have hA1 : A.size (-1) = .ok n := size_last A [1] n n rfl
  have hA2 : A.size (-2) = .ok n := size_secondLast A [1] n n rfl
  have hB2 : B.size (-2) = .ok n := size_secondLast B [k + 2] n m rfl
  have hA0 : A.size 0 = .ok 1 := size_zero A 1 [n, n] rfl
  have hB0 : B.size 0 = .ok (k + 2) := size_zero B (k + 2) [n, m] rfl
  have hchk : checkInputs B A true = .error (.sizeIncompatible 1 (k + 2)) := by
    unfold checkInputs
    rw [hA1, hA2, hB2, hA0, hB0]
    simp [bind, Except.bind, throw, throwThe, MonadExceptOf.throw, pure, Except.pure]
  have hb : (!(decide (B.dim ≤ 2) && decide (A.dim ≤ 2))) = true := by
    simp [Tensor.dim, A, B]
  rw [← hb] at hchk
  rw [gesv_of_invalid kernel B A _ hchk]
  exact ⟨rfl, rfl⟩

/-- C6: when the last two dimensions of A differ, `checkInputs` fails with the
must-be-square error for every B and both values of the flag, the flag selecting the
variant; `gesv` therefore fails with it too (the flag being whether some rank exceeds 2)
without invoking the kernel. -/
theorem not_square_rejected {α : Type} [Inhabited α] (kernel : Kernel α)
    (self A : Tensor α) (pre : List Nat) (r c : Nat)
    (hA : A.sizes = pre ++ [r, c]) (hne : r ≠ c) :
    checkInputs self A true = .error (.notSquareBatched c r) ∧
    checkInputs self A false = .error (.notSquareSingle c r) ∧
    (gesv kernel self A).result =
      .error (if self.dim ≤ 2 ∧ A.dim ≤ 2 then .notSquareSingle c r
              else .notSquareBatched c r) ∧
    (gesv kernel self A).calls = [] := by
  have h1 := checkInputs_of_not_square self A true pre r c hA hne
  have h2 := checkInputs_of_not_square self A false pre r c hA hne
  simp only [if_true, Bool.false_eq_true, if_false] at h1 h2
  refine ⟨h1, h2, ?_⟩
  by_cases hb : self.dim ≤ 2 ∧ A.dim ≤ 2
  · have hb2 : (!(decide (self.dim ≤ 2) && decide (A.dim ≤ 2))) = false := by
      simp [hb.1, hb.2]
    rw [← hb2] at h2
    rw [gesv_of_invalid kernel self A _ h2, if_pos hb]
    exact ⟨rfl, rfl⟩
  · have hb2 : (!(decide (self.dim ≤ 2) && decide (A.dim ≤ 2))) = true := by
      rw [not_and_or] at hb
      rcases hb with hb | hb <;> simp [hb]
    rw [← hb2] at h1
    rw [gesv_of_invalid kernel self A _ h1, if_neg hb]
    exact ⟨rfl, rfl⟩

/-- Witness for `not_square_rejected`: A of shape (3,4) with a 1-D B of length 3. -/
theorem not_square_rejected_witness :
    checkInputs (⟨[3], [1], [1, 2, 3]⟩ : Tensor Int)
        ⟨[3, 4], [4, 1], [1, 2, 3, 4, 5, 6, 7, 8, 9, 10, 11, 12]⟩ true
      = .error (.notSquareBatched 4 3) ∧
    checkInputs (⟨[3], [1], [1, 2, 3]⟩ : Tensor Int)
        ⟨[3, 4], [4, 1], [1, 2, 3, 4, 5, 6, 7, 8, 9, 10, 11, 12]⟩ false
      = .error (.notSquareSingle 4 3) ∧
    (gesv unitKernel ⟨[3], [1], [1, 2, 3]⟩
        ⟨[3, 4], [4, 1], [1, 2, 3, 4, 5, 6, 7, 8, 9, 10, 11, 12]⟩).result =
      .error (if (⟨[3], [1], [1, 2, 3]⟩ : Tensor Int).dim ≤ 2 ∧
                 (⟨[3, 4], [4, 1], [1, 2, 3, 4, 5, 6, 7, 8, 9, 10, 11, 12]⟩ : Tensor Int).dim ≤ 2
              then .notSquareSingle 4 3 else .notSquareBatched 4 3) ∧
    (gesv unitKernel ⟨[3], [1], [1, 2, 3]⟩
        ⟨[3, 4], [4, 1], [1, 2, 3, 4, 5, 6, 7, 8, 9, 10, 11, 12]⟩).calls = [] :=
  not_square_rejected unitKernel ⟨[3], [1], [1, 2, 3]⟩
    ⟨[3, 4], [4, 1], [1, 2, 3, 4, 5, 6, 7, 8, 9, 10, 11, 12]⟩ [] 3 4 rfl (by decide)

/-- C9: with the flag clear, for a 2-D A of shape (r,c) and B of rank 1 or 2 with leading
dimension b0 (indeed for B of any rank at least 1), `checkInputs` succeeds exactly when
`r = c` and `r = b0`; when A is square and the leading dimensions differ it fails with
the size-incompatible error. -/
theorem checkInputs_single {α : Type} (self A : Tensor α) (r c b0 : Nat) (rest : List Nat)
    (hA : A.sizes = [r, c]) (hB : self.sizes = b0 :: rest) :
    (checkInputs self A false = .ok () ↔ r = c ∧ r = b0) ∧
    (r = c → r ≠ b0 → checkInputs self A false = .error (.sizeIncompatible r b0)) := by
  have hA1 : A.size (-1) = .ok c := size_last A [] r c hA
  have hA2 : A.size (-2) = .ok r := size_secondLast A [] r c hA
  have hA0 : A.size 0 = .ok r := size_zero A r [c] hA
  have hB0 : self.size 0 = .ok b0 := size_zero self b0 rest hB
  unfold checkInputs
  rw [hA1, hA2, hA0, hB0]
  by_cases hrc : r = c
  · subst hrc
    by_cases hb : r = b0
    · simp [hb, bind, Except.bind, throw, throwThe, MonadExceptOf.throw, pure, Except.pure]
    · simp [hb, bind, Except.bind, throw, throwThe, MonadExceptOf.throw, pure, Except.pure]
  · have hcr : c ≠ r := fun h => hrc h.symm
    simp [hrc, hcr, bind, Except.bind, throw, throwThe, MonadExceptOf.throw, pure, Except.pure]

/-- Witness for `checkInputs_single`: a 2-by-2 A with a 1-D B of length 2. -/
theorem checkInputs_single_witness :
    (checkInputs (⟨[2], [1], [5, 6]⟩ : Tensor Int) ⟨[2, 2], [2, 1], [1, 0, 0, 1]⟩ false
        = .ok () ↔ 2 = 2 ∧ 2 = 2) ∧
    (2 = 2 → 2 ≠ 2 →
      checkInputs (⟨[2], [1], [5, 6]⟩ : Tensor Int) ⟨[2, 2], [2, 1], [1, 0, 0, 1]⟩ false
        = .error (.sizeIncompatible 2 2)) :=
  checkInputs_single ⟨[2], [1], [5, 6]⟩ ⟨[2, 2], [2, 1], [1, 0, 0, 1]⟩ 2 2 2 [] rfl rfl

/-! ## Properties of the out variant -/

/-- C7: `gesv_out` raises the unsupported-batching error, whatever the single-matrix out
path would do, exactly when the rank of B or of A exceeds 2, a condition on the ranks
alone; for every other input its result is the result of the single-matrix out path on
the same four arguments. -/
theorem gesv_out_rank_gate {σ ρ α : Type} (solution lu : σ) (self A : Tensor α) :
    ((∀ th : σ → σ → Tensor α → Tensor α → Except GesvError ρ,
        gesv_out th solution lu self A = .error (.unsupportedBatching self.dim A.dim)) ↔
      (self.dim > 2 ∨ A.dim > 2)) ∧
    (¬ (self.dim > 2 ∨ A.dim > 2) →
      ∀ th : σ → σ → Tensor α → Tensor α → Except GesvError ρ,
        gesv_out th solution lu self A = th solution lu self A) := by
  constructor
  · constructor
    · intro h
      by_contra hn
      have h2 := h (fun _ _ _ _ => .error (.dimOutOfRange 0 0))
      simp only [gesv_out, if_neg hn] at h2
      cases h2
    · intro h th
      simp only [gesv_out, if_pos h]
  · intro hn th
    simp only [gesv_out, if_neg hn]

/-! ## Properties of the single-matrix path -/

theorem size_zero_ok_dim {α : Type} (t : Tensor α) (v : Nat) (h : t.size 0 = .ok v) :
    0 < t.dim := by
  unfold Tensor.size at h
  by_cases h1 : ((0 : Int) ≤ 0 ∧ (0 : Int) < (t.dim : Int))
  · omega
  · rw [if_neg h1] at h
    have h2 : ¬ ((0 : Int) < 0 ∧ -(t.dim : Int) ≤ 0) := by omega
    rw [if_neg h2] at h
    cases h

theorem size_one_ok {α : Type} (t : Tensor α) (h : 2 ≤ t.dim) :
    t.size 1 = .ok (t.sizes.getD 1 0) := by
  unfold Tensor.size
  have h1 : ((0 : Int) ≤ 1 ∧ (1 : Int) < (t.dim : Int)) := by omega
  rw [if_pos h1]
  rfl

theorem checkInputs_single_ok {α : Type} (self A : Tensor α)
    (h : checkInputs self A false = .ok ()) :
    ∃ n, A.size (-1) = .ok n ∧ A.size (-2) = .ok n ∧ A.size 0 = self.size 0 ∧
      ∃ b0, self.size 0 = .ok b0 := by
  unfold checkInputs at h
  rcases h1 : A.size (-1) with e | aLast
  · simp [h1, bind, Except.bind] at h
  rcases h2 : A.size (-2) with e | aSecond
  · simp [h1, h2, bind, Except.bind] at h
  rcases h3 : A.size 0 with e | a0
  · by_cases hsq : aLast = aSecond <;>
      simp [h1, h2, h3, hsq, bind, Except.bind, throw, throwThe, MonadExceptOf.throw, pure,
        Except.pure] at h
  rcases h4 : self.size 0 with e | b0
  · by_cases hsq : aLast = aSecond <;>
      simp [h1, h2, h3, h4, hsq, bind, Except.bind, throw, throwThe, MonadExceptOf.throw, pure,
        Except.pure] at h
  by_cases hsq : aLast = aSecond
  · by_cases hab : a0 = b0
    · subst hsq hab
      exact ⟨aLast, rfl, rfl, rfl, a0, rfl⟩
    · simp [h1, h2, h3, h4, hsq, hab, bind, Except.bind, throw, throwThe, MonadExceptOf.throw,
        pure, Except.pure] at h
  · simp [h1, h2, h3, h4, hsq, bind, Except.bind, throw, throwThe, MonadExceptOf.throw, pure,
      Except.pure] at h

theorem gesv_single_path {α : Type} [Inhabited α] (kernel : Kernel α) (self A : Tensor α)
    (hs : self.dim ≤ 2) (ha : A.dim ≤ 2) (hv : checkInputs self A false = .ok ()) :
    gesv kernel self A = _gesv_single_helper kernel self A := by
  have hb : (!(decide (self.dim ≤ 2) && decide (A.dim ≤ 2))) = false := by simp [hs, ha]
  unfold gesv
  simp only [hb, hv]
  rfl

theorem checkErrors_singleton (info : Int) :
    checkErrors [info] = if info = 0 then .ok () else .error (statusError 0 info) := by
  unfold checkErrors checkErrorsFrom checkErrorsFrom statusError
  by_cases hneg : info < 0
  · have h0 : info ≠ 0 := by omega
    simp [hneg, h0]
  · by_cases hpos : info > 0
    · have h0 : info ≠ 0 := by omega
      simp [hneg, hpos, h0]
    · have h0 : info = 0 := by omega
      simp [h0]

/-- The single call of `_gesv_single_helper` and its outcome, once `bx` and `by` are known. -/
theorem single_helper_eq {α : Type} [Inhabited α] (kernel : Kernel α) (self A : Tensor α)
    (bx by_ : Nat) (hbx : self.size 0 = .ok bx)
    (hby : (if self.dim = 1 then .ok 1 else self.size 1 : Except GesvError Nat) = .ok by_) :
    _gesv_single_helper kernel self A =
      { calls := [{ aOffset := 0, bOffset := 0, args := singleArgs self A bx by_ }]
        result :=
          if (kernel (singleArgs self A bx by_)).info = 0 then
            .ok (singleResult kernel self A bx by_)
          else .error (statusError 0 (kernel (singleArgs self A bx by_)).info) } := by
  unfold _gesv_single_helper
  simp only [hbx, hby, lapackGesv]
  rw [checkErrors_singleton]
  split_ifs with h0 <;> rfl

theorem single_helper_by {α : Type} (self : Tensor α) (v : Nat) (hs : self.dim ≤ 2)
    (h0 : self.size 0 = .ok v) :
    ∃ by_, (if self.dim = 1 then .ok 1 else self.size 1 : Except GesvError Nat) = .ok by_ := by
  have hpos := size_zero_ok_dim self v h0
  by_cases h1 : self.dim = 1
  · exact ⟨1, by rw [if_pos h1]⟩
  · have h2 : 2 ≤ self.dim := by omega
    exact ⟨_, by rw [if_neg h1, size_one_ok self h2]⟩

theorem narrowInt_of_lt (x : Nat) (h : x < 2 ^ 31) : narrowInt x = x := by
  unfold narrowInt
  have h2 : ((x : Int) + 2 ^ 31) % 2 ^ 32 = (x : Int) + 2 ^ 31 := by
    apply Int.emod_eq_of_lt <;> omega
  omega

theorem size_secondLast_dim {α : Type} (t : Tensor α) (v : Nat) (h : t.size (-2) = .ok v) :
    2 ≤ t.dim := by
  unfold Tensor.size at h
  have h1 : ¬ ((0 : Int) ≤ -2 ∧ (-2 : Int) < (t.dim : Int)) := by omega
  rw [if_neg h1] at h
  by_cases h2 : ((-2 : Int) < 0 ∧ -(t.dim : Int) ≤ -2)
  · omega
  · rw [if_neg h2] at h
    cases h

theorem sizes_split (l : List Nat) (h : 2 ≤ l.length) :
    ∃ r c, l = l.take (l.length - 2) ++ [r, c] := by
  have hd : (l.drop (l.length - 2)).length = 2 := by
    rw [List.length_drop]
    omega
  match hm : l.drop (l.length - 2), hd with
  | [r, c], _ =>
    refine ⟨r, c, ?_⟩
    rw [← hm, List.take_append_drop]

theorem flatMap_const_length {β : Type} (l : List Nat) (f : Nat → List β) (k : Nat)
    (h : ∀ i, (f i).length = k) : (l.flatMap f).length = l.length * k := by
  induction l with
  | nil => simp
  | cons x xs ih => simp [List.flatMap_cons, h, ih, Nat.succ_mul, Nat.add_comm]

theorem indices_length (l : List Nat) : (indices l).length = l.prod := by
  induction l with
  | nil => simp [indices]
  | cons s rest ih =>
    rw [indices, flatMap_const_length _ _ rest.prod (by intro i; simp [ih])]
    simp

theorem clone_storage_length {α : Type} [Inhabited α] (t : Tensor α) :
    t.clone.storage.length = t.sizes.prod := by
  simp [Tensor.clone, indices_length]

theorem window_full {α : Type} (buf : List α) (len : Nat) (h : buf.length ≤ len) :
    window buf 0 len = buf := by
  simp [window, List.take_of_length_le h]

theorem overwrite_full {α : Type} (buf w : List α) (h : w.length = buf.length) :
    overwrite buf 0 buf.length w = w := by
  simp [overwrite, window, ← h]

/-- The pair `_gesv_single_helper` returns for an n-by-n A, written out: the copy of B
and the copy of A, each with the cells the kernel returned written over it, seen
transposed back (shape (bx, by) with strides (1, bx), shape (n, n) with strides (1, n)). -/
theorem singleResult_eq {α : Type} [Inhabited α] (kernel : Kernel α) (self A : Tensor α)
    (bx by_ n : Nat) (hA : A.sizes = [n, n]) :
    singleResult kernel self A bx by_ =
      ({ sizes := [bx, by_], strides := [1, bx]
         storage := overwrite (self.view2 bx by_).t.clone.storage 0
           (singleArgs self A bx by_).b.length (kernel (singleArgs self A bx by_)).b },
       { sizes := [n, n], strides := [1, n]
         storage := overwrite A.t.clone.storage 0
           (singleArgs self A bx by_).a.length (kernel (singleArgs self A bx by_)).a }) := by
  simp [singleResult, lapackGesv, Tensor.t, Tensor.transposeLast, Tensor.clone, Tensor.view2,
    swapLastTwo, contiguousStrides, hA]

/-- Below 2^31 the kernel of the single-matrix path is handed the two copies whole: the
n*n cells of the copy of A and the n*by cells of the copy of B. -/
theorem singleArgs_whole {α : Type} [Inhabited α] (self A : Tensor α) (by_ n : Nat)
    (hA : A.sizes = [n, n]) (hn : n < 2 ^ 31) (hm : by_ < 2 ^ 31) :
    (singleArgs self A n by_).a = A.t.clone.storage ∧
    (singleArgs self A n by_).b = (self.view2 n by_).t.clone.storage ∧
    A.t.clone.storage.length = n * n ∧
    (self.view2 n by_).t.clone.storage.length = n * by_ := by
  have hnn : (narrowInt (n : Int)).toNat = n := by rw [narrowInt_of_lt n hn]; simp
  have hmm : (narrowInt (by_ : Int)).toNat = by_ := by rw [narrowInt_of_lt by_ hm]; simp
  have hla : A.t.clone.storage.length = n * n := by
    rw [clone_storage_length]
    simp [Tensor.t, Tensor.transposeLast, swapLastTwo, hA]
  have hlb : (self.view2 n by_).t.clone.storage.length = n * by_ := by
    rw [clone_storage_length]
    simp [Tensor.t, Tensor.transposeLast, Tensor.view2, swapLastTwo, Nat.mul_comm]
  refine ⟨?_, ?_, hla, hlb⟩
  · simp only [singleArgs]
    rw [hnn]
    exact window_full _ _ (by rw [hla])
  · simp only [singleArgs]
    rw [hnn, hmm]
    exact window_full _ _ (by rw [hlb])

/-- The shapes on the single-matrix path after a successful validation: A is n-by-n, the
leading dimension of B is n, and `by` is 1 for a 1-D B and its second dimension else. -/
theorem single_path_shapes {α : Type} (self A : Tensor α)
    (hs : self.dim ≤ 2) (ha : A.dim ≤ 2) (hv : checkInputs self A false = .ok ()) :
    ∃ n by_, A.sizes = [n, n] ∧ self.size 0 = .ok n ∧
      (if self.dim = 1 then .ok 1 else self.size 1 : Except GesvError Nat) = .ok by_ := by
  obtain ⟨k, h1, h2, h3, bx, hbx⟩ := checkInputs_single_ok self A hv
  have hdim : A.dim = 2 := by
    have := size_secondLast_dim A k h2
    omega
  obtain ⟨r, c, hsplit⟩ := sizes_split A.sizes (by rw [← Tensor.dim]; omega)
  have hA : A.sizes = [r, c] := by
    have hl : A.sizes.length = 2 := hdim
    rw [hl] at hsplit
    simpa using hsplit
  have hc : c = k := by
    have := size_last A [] r c hA
    rw [h1] at this
    cases this
    rfl
  have hr : r = k := by
    have := size_secondLast A [] r c hA
    rw [h2] at this
    cases this
    rfl
  have hb : bx = k := by
    have := size_zero A r [c] hA
    rw [h3, hbx] at this
    cases this
    exact hr
  rw [hc, hr] at hA
  rw [hb] at hbx
  obtain ⟨by_, hby⟩ := single_helper_by self k hs hbx
  exact ⟨k, by_, hA, hbx, hby⟩

/-- C8: on the single-matrix path (both ranks at most 2, validation passed, the kernel
status a C `int`) `gesv` is `_gesv_single_helper`, which invokes the kernel exactly once,
on the column-major copies of A and B. With `info` the status of that call, it fails
exactly when `info` is non-zero, with `singularMatrix 0 info info` when `info > 0` and
`illegalArgument 0 (-info)` when `info < 0`. When `info = 0` it returns the pair
(solution, factors): the copy of B and the copy of A with the cells the kernel returned
written over them, seen transposed back with the shapes (n, by) and (n, n); when the
kernel returns whole buffers (sizes below 2^31), these hold exactly the B buffer and the
A buffer the kernel returned. -/
theorem single_helper_status {α : Type} [Inhabited α] (kernel : Kernel α) (self A : Tensor α)
    (hs : self.dim ≤ 2) (ha : A.dim ≤ 2) (hv : checkInputs self A false = .ok ())
    (hint : ∀ args, -2 ^ 31 ≤ (kernel args).info ∧ (kernel args).info < 2 ^ 31) :
    gesv kernel self A = _gesv_single_helper kernel self A ∧
    ∃ n by_ call, A.sizes = [n, n] ∧ self.size 0 = .ok n ∧
      (if self.dim = 1 then .ok 1 else self.size 1 : Except GesvError Nat) = .ok by_ ∧
      (_gesv_single_helper kernel self A).calls = [call] ∧
      call = { aOffset := 0, bOffset := 0, args := singleArgs self A n by_ } ∧
      ((∃ e, (_gesv_single_helper kernel self A).result = .error e) ↔
        (kernel call.args).info ≠ 0) ∧
      ((kernel call.args).info = 0 →
        ∃ pair, (_gesv_single_helper kernel self A).result = .ok pair) ∧
      (0 < (kernel call.args).info →
        (_gesv_single_helper kernel self A).result =
          .error (.singularMatrix 0 (kernel call.args).info (kernel call.args).info)) ∧
      ((kernel call.args).info < 0 →
        (_gesv_single_helper kernel self A).result =
          .error (.illegalArgument 0 (-(kernel call.args).info))) ∧
      ((kernel call.args).info = 0 →
        (_gesv_single_helper kernel self A).result =
          .ok ({ sizes := [n, by_], strides := [1, n]
                 storage := overwrite (self.view2 n by_).t.clone.storage 0
                   call.args.b.length (kernel call.args).b },
               { sizes := [n, n], strides := [1, n]
                 storage := overwrite A.t.clone.storage 0
                   call.args.a.length (kernel call.args).a })) ∧
      (n < 2 ^ 31 → by_ < 2 ^ 31 →
        call.args.a = A.t.clone.storage ∧ call.args.b = (self.view2 n by_).t.clone.storage ∧
        call.args.a.length = n * n ∧ call.args.b.length = n * by_ ∧
        ((kernel call.args).info = 0 →
          (kernel call.args).a.length = n * n → (kernel call.args).b.length = n * by_ →
          (_gesv_single_helper kernel self A).result =
            .ok ({ sizes := [n, by_], strides := [1, n], storage := (kernel call.args).b },
                 { sizes := [n, n], strides := [1, n], storage := (kernel call.args).a }))) := by
  refine ⟨gesv_single_path kernel self A hs ha hv, ?_⟩
  obtain ⟨n, by_, hA, hbx, hby⟩ := single_path_shapes self A hs ha hv
  have hres := single_helper_eq kernel self A n by_ hbx hby
  have hpair := singleResult_eq kernel self A n by_ n hA
  obtain ⟨hlo, hhi⟩ := hint (singleArgs self A n by_)
  refine ⟨n, by_, ⟨0, 0, singleArgs self A n by_⟩, hA, hbx, hby, ?_, rfl, ?_⟩
  · rw [hres]
  rw [hres]
  dsimp only
  generalize hinfo : (kernel (singleArgs self A n by_)).info = info at hlo hhi
  refine ⟨?_, ?_, ?_, ?_, ?_, ?_⟩
  · constructor
    · rintro ⟨e, he⟩ h0
      rw [if_pos h0] at he
      cases he
    · intro h0
      exact ⟨_, by rw [if_neg h0]⟩
  · intro h0
    exact ⟨_, by rw [if_pos h0]⟩
  · intro hpos
    have h0 : info ≠ 0 := by omega
    have hneg : ¬ info < 0 := by omega
    rw [if_neg h0, statusError, if_neg hneg]
  · intro hneg
    have h0 : info ≠ 0 := by omega
    rw [if_neg h0, statusError, if_pos hneg, negInt64_of_ne_min info (by omega) (by omega)]
  · intro h0
    rw [if_pos h0, hpair]
  · intro hn hm
    obtain ⟨ha1, hb1, hla, hlb⟩ := singleArgs_whole self A by_ n hA hn hm
    refine ⟨ha1, hb1, by rw [ha1, hla], by rw [hb1, hlb], ?_⟩
    intro h0 hka hkb
    rw [if_pos h0, hpair, ha1, hb1, overwrite_full _ _ (by rw [hkb, hlb]),
      overwrite_full _ _ (by rw [hka, hla])]

/-- Witness for `single_helper_status`: the 1-by-1 system with coefficient -1 and the two
right-hand sides 5 and 6. -/
theorem single_helper_status_witness :
    gesv unitKernel rhs12 mat1 = _gesv_single_helper unitKernel rhs12 mat1 ∧
    ∃ n by_ call, mat1.sizes = [n, n] ∧ rhs12.size 0 = .ok n ∧
      (if rhs12.dim = 1 then .ok 1 else rhs12.size 1 : Except GesvError Nat) = .ok by_ ∧
      (_gesv_single_helper unitKernel rhs12 mat1).calls = [call] ∧
      call = { aOffset := 0, bOffset := 0, args := singleArgs rhs12 mat1 n by_ } ∧
      ((∃ e, (_gesv_single_helper unitKernel rhs12 mat1).result = .error e) ↔
        (unitKernel call.args).info ≠ 0) ∧
      ((unitKernel call.args).info = 0 →
        ∃ pair, (_gesv_single_helper unitKernel rhs12 mat1).result = .ok pair) ∧
      (0 < (unitKernel call.args).info →
        (_gesv_single_helper unitKernel rhs12 mat1).result =
          .error (.singularMatrix 0 (unitKernel call.args).info (unitKernel call.args).info)) ∧
      ((unitKernel call.args).info < 0 →
        (_gesv_single_helper unitKernel rhs12 mat1).result =
          .error (.illegalArgument 0 (-(unitKernel call.args).info))) ∧
      ((unitKernel call.args).info = 0 →
        (_gesv_single_helper unitKernel rhs12 mat1).result =
          .ok ({ sizes := [n, by_], strides := [1, n]
                 storage := overwrite (rhs12.view2 n by_).t.clone.storage 0
                   call.args.b.length (unitKernel call.args).b },
               { sizes := [n, n], strides := [1, n]
                 storage := overwrite mat1.t.clone.storage 0
                   call.args.a.length (unitKernel call.args).a })) ∧
      (n < 2 ^ 31 → by_ < 2 ^ 31 →
        call.args.a = mat1.t.clone.storage ∧ call.args.b = (rhs12.view2 n by_).t.clone.storage ∧
        call.args.a.length = n * n ∧ call.args.b.length = n * by_ ∧
        ((unitKernel call.args).info = 0 →
          (unitKernel call.args).a.length = n * n → (unitKernel call.args).b.length = n * by_ →
          (_gesv_single_helper unitKernel rhs12 mat1).result =
            .ok ({ sizes := [n, by_], strides := [1, n], storage := (unitKernel call.args).b },
                 { sizes := [n, n], strides := [1, n], storage := (unitKernel call.args).a }))) :=
  single_helper_status unitKernel rhs12 mat1 (by decide) (by decide) (by decide)
    (by
      intro args
      unfold unitKernel
      split <;> (dsimp only; omega))

/-! ## Properties of the batched path -/

theorem swapLastTwo_append (pre : List Nat) (r c : Nat) :
    swapLastTwo (pre ++ [r, c]) = pre ++ [c, r] := by
  simp [swapLastTwo]

theorem cloneBatchedColumnMajor_sizes {α : Type} [Inhabited α] (t : Tensor α)
    (pre : List Nat) (r c : Nat) (h : t.sizes = pre ++ [r, c]) :
    (cloneBatchedColumnMajor t).sizes = pre ++ [r, c] := by
  simp [cloneBatchedColumnMajor, Tensor.transposeLast, Tensor.clone, h, swapLastTwo_append]

theorem batchCount_of_sizes {α : Type} (t : Tensor α) (pre : List Nat) (r c : Nat)
    (h : t.sizes = pre ++ [r, c]) : batchCount t = pre.prod := by
  simp [batchCount, Tensor.dim, h]

theorem matrixStride_of_sizes {α : Type} (t : Tensor α) (pre : List Nat) (r c : Nat)
    (h : t.sizes = pre ++ [r, c]) : matrixStride t = .ok (c * r) := by
  simp [matrixStride, size_last t pre r c h, size_secondLast t pre r c h]

theorem checkErrors_replicate_zero (k : Nat) :
    checkErrors (List.replicate k (0 : Int)) = .ok () := by
  rw [checkErrors, checkErrorsFrom_ok_iff]
  intro x hx
  exact List.eq_of_mem_replicate hx

/-- The loop that `applyGesv` runs on two tensors of rank at least 2. -/
theorem applyGesv_eq {α : Type} (kernel : Kernel α) (b A : Tensor α) (infos : List Int)
    (preA preB : List Nat) (n c r nrhs : Nat)
    (hA : A.sizes = preA ++ [n, c]) (hB : b.sizes = preB ++ [r, nrhs]) :
    applyGesv kernel b A infos =
      .ok (applyGesvLoop kernel (c * n) (nrhs * r) n nrhs preA.prod 0
        { b := b, A := A, infos := infos, ipiv := List.replicate n (0 : Int), calls := [] }) := by
  unfold applyGesv
  rw [matrixStride_of_sizes A preA n c hA, matrixStride_of_sizes b preB r nrhs hB,
    batchCount_of_sizes A preA n c hA, size_secondLast A preA n c hA,
    size_last b preB r nrhs hB]
  rfl

/-- On operands of rank at least 2, `_gesv_helper_cpu` returns the two working copies as
the loop left them, together with the invocations of the loop. -/
theorem gesv_helper_cpu_eq {α : Type} [Inhabited α] (kernel : Kernel α) (self A : Tensor α)
    (preA preB : List Nat) (n c r nrhs : Nat)
    (hA : A.sizes = preA ++ [n, c]) (hB : self.sizes = preB ++ [r, nrhs]) :
    _gesv_helper_cpu kernel self A =
      (let st := applyGesvLoop kernel (c * n) (nrhs * r) n nrhs preA.prod 0
          { b := cloneBatchedColumnMajor self, A := cloneBatchedColumnMajor A,
            infos := List.replicate preA.prod (0 : Int),
            ipiv := List.replicate n (0 : Int), calls := [] }
       { calls := st.calls, result := .ok (st.b, st.A) }) := by
  unfold _gesv_helper_cpu
  simp only [checkErrors_replicate_zero,
    applyGesv_eq kernel (cloneBatchedColumnMajor self) (cloneBatchedColumnMajor A) _
      preA preB n c r nrhs (cloneBatchedColumnMajor_sizes A preA n c hA)
      (cloneBatchedColumnMajor_sizes self preB r nrhs hB),
    batchCount_of_sizes A preA n c hA]

/-- C1, evaluated: A holds the 1-by-1 matrices [1] and [0], B the right-hand sides [5]
and [6] (both of shape (2,1,1), so the input is batched and passes validation). The
kernel returns status 0 for batch element 0 and status 1 (zero pivot) for batch element 1,
yet `gesv` does not fail with `singularMatrix`: it returns the pair of working copies. -/
theorem gesv_batched_singular_not_reported :
    let A : Tensor Int := ⟨[2, 1, 1], [1, 1, 1], [1, 0]⟩
    let B : Tensor Int := ⟨[2, 1, 1], [1, 1, 1], [5, 6]⟩
    checkInputs B A true = .ok () ∧
    (gesv unitKernel B A).calls.map (fun c => (unitKernel c.args).info) = [0, 1] ∧
    (gesv unitKernel B A).result =
      .ok (⟨[2, 1, 1], [1, 1, 1], [5, 6]⟩, ⟨[2, 1, 1], [1, 1, 1], [1, 0]⟩) := by
  decide

/-- C10, as stated, fails: A holds the 1-by-1 matrices [1], [0], [-1] and B the
right-hand sides [5], [6], [7]. On the three windows the kernel reports the statuses
0, 1, 0 (only batch element 1 is singular), yet the batched solve raises no
`singularMatrix` error (it returns), and it invokes the kernel at the offsets 0 and 1
only: batch element 2 is never solved (its right-hand side is still 7, not -7). -/
theorem gesv_batch3_middle_singular :
    let A : Tensor Int := ⟨[3, 1, 1], [1, 1, 1], [1, 0, -1]⟩
    let B : Tensor Int := ⟨[3, 1, 1], [1, 1, 1], [5, 6, 7]⟩
    let st0 : LoopState Int :=
      { b := cloneBatchedColumnMajor B, A := cloneBatchedColumnMajor A,
        infos := [0, 0, 0], ipiv := [0], calls := [] }
    (List.range 3).map (fun i => (unitKernel (loopArgs 1 1 1 1 i st0)).info) = [0, 1, 0] ∧
    (gesv unitKernel B A).result =
      .ok (⟨[3, 1, 1], [1, 1, 1], [5, 6, 7]⟩, ⟨[3, 1, 1], [1, 1, 1], [1, 0, -1]⟩) ∧
    (gesv unitKernel B A).calls.map (fun c => c.aOffset) = [0, 1] ∧
    (gesv unitKernel B A).calls.map (fun c => c.bOffset) = [0, 1] := by
  decide

/-- C10 (amended): for operands whose batch count is 3, if the kernel returns status 0 on
batch element 0 and a positive status on batch element 1, the batched solve invokes the
kernel exactly twice, on the windows of batch elements 0 and 1 in this order (offsets 0
and one matrix stride), and never on batch element 2. -/
theorem batched_solve_stops_at_singular {α : Type} [Inhabited α] (kernel : Kernel α)
    (self A : Tensor α) (preA preB : List Nat) (n c r nrhs : Nat)
    (hA : A.sizes = preA ++ [n, c]) (hB : self.sizes = preB ++ [r, nrhs])
    (hcount : batchCount A = 3)
    (h0 : (kernel (loopArgs (c * n) (nrhs * r) n nrhs 0
            { b := cloneBatchedColumnMajor self, A := cloneBatchedColumnMajor A,
              infos := [0, 0, 0], ipiv := List.replicate n (0 : Int), calls := [] })).info = 0)
    (h1 : 0 < (kernel (loopArgs (c * n) (nrhs * r) n nrhs 1
            (loopStep kernel (c * n) (nrhs * r) n nrhs 0
              { b := cloneBatchedColumnMajor self, A := cloneBatchedColumnMajor A,
                infos := [0, 0, 0], ipiv := List.replicate n (0 : Int),
                calls := [] }))).info) :
    (_gesv_helper_cpu kernel self A).calls =
      [ { aOffset := 0, bOffset := 0,
          args := loopArgs (c * n) (nrhs * r) n nrhs 0
            { b := cloneBatchedColumnMajor self, A := cloneBatchedColumnMajor A,
              infos := [0, 0, 0], ipiv := List.replicate n (0 : Int), calls := [] } },
        { aOffset := c * n, bOffset := nrhs * r,
          args := loopArgs (c * n) (nrhs * r) n nrhs 1
            (loopStep kernel (c * n) (nrhs * r) n nrhs 0
              { b := cloneBatchedColumnMajor self, A := cloneBatchedColumnMajor A,
                infos := [0, 0, 0], ipiv := List.replicate n (0 : Int), calls := [] }) } ] ∧
    (_gesv_helper_cpu kernel self A).calls.length = 2 := by
  have hprod : preA.prod = 3 := by rw [← batchCount_of_sizes A preA n c hA, hcount]
  have h1ne : (kernel (loopArgs (c * n) (nrhs * r) n nrhs 1
            (loopStep kernel (c * n) (nrhs * r) n nrhs 0
              { b := cloneBatchedColumnMajor self, A := cloneBatchedColumnMajor A,
                infos := [0, 0, 0], ipiv := List.replicate n (0 : Int),
                calls := [] }))).info ≠ 0 := by omega
  rw [gesv_helper_cpu_eq kernel self A preA preB n c r nrhs hA hB, hprod]
  have hrep : List.replicate 3 (0 : Int) = [0, 0, 0] := rfl
  simp only [hrep, applyGesvLoop, lapackGesv, h0, h1ne, ne_eq, not_true_eq_false, not_false_eq_true,
    if_true, if_false]
  simp [loopStep]

/-- Witness for `batched_solve_stops_at_singular`: the matrices [1], [0], [-1] with the
right-hand sides [5], [6], [7]. -/
theorem batched_solve_stops_at_singular_witness :
    (_gesv_helper_cpu unitKernel ⟨[3, 1, 1], [1, 1, 1], [5, 6, 7]⟩
        ⟨[3, 1, 1], [1, 1, 1], [1, 0, -1]⟩).calls =
      [ { aOffset := 0, bOffset := 0,
          args := { n := 1, nrhs := 1, a := [1], lda := 1, ipiv := [0], b := [5], ldb := 1 } },
        { aOffset := 1, bOffset := 1,
          args := { n := 1, nrhs := 1, a := [0], lda := 1, ipiv := [1], b := [6], ldb := 1 } } ] ∧
    (_gesv_helper_cpu unitKernel ⟨[3, 1, 1], [1, 1, 1], [5, 6, 7]⟩
        ⟨[3, 1, 1], [1, 1, 1], [1, 0, -1]⟩).calls.length = 2 :=
  batched_solve_stops_at_singular unitKernel ⟨[3, 1, 1], [1, 1, 1], [5, 6, 7]⟩
    ⟨[3, 1, 1], [1, 1, 1], [1, 0, -1]⟩ [3] [3] 1 1 1 1 rfl rfl (by decide) (by decide)
    (by decide)

theorem applyGesv_error_kind {α : Type} (kernel : Kernel α) (b A : Tensor α)
    (infos : List Int) (e : GesvError) (h : applyGesv kernel b A infos = .error e) :
    ∃ d k, e = .dimOutOfRange d k := by
  have hsize : ∀ (t : Tensor α) (d : Int) (e : GesvError), t.size d = .error e →
      e = .dimOutOfRange d t.dim := by
    intro t d e he
    unfold Tensor.size at he
    split_ifs at he
    cases he
    rfl
  unfold applyGesv matrixStride at h
  rcases h1 : A.size (-1) with e1 | v1
  · have := hsize A _ e1 h1
    simp [h1, bind, Except.bind] at h
    exact ⟨_, _, h ▸ this⟩
  rcases h2 : A.size (-2) with e2 | v2
  · have := hsize A _ e2 h2
    simp [h1, h2, bind, Except.bind] at h
    exact ⟨_, _, h ▸ this⟩
  rcases h3 : b.size (-1) with e3 | v3
  · have := hsize b _ e3 h3
    simp [h1, h2, h3, bind, Except.bind] at h
    exact ⟨_, _, h ▸ this⟩
  rcases h4 : b.size (-2) with e4 | v4
  · have := hsize b _ e4 h4
    simp [h1, h2, h3, h4, bind, Except.bind] at h
    exact ⟨_, _, h ▸ this⟩
  simp [h1, h2, h3, h4, bind, Except.bind, pure, Except.pure] at h

/-- C16: the vector `_gesv_helper_cpu` hands to `checkErrors` is its own
`infos = (batchCount(A), 0)`, all zeros whatever the kernel returned, because `applyGesv`
wrote the statuses into its private copy. So the helper never fails with
`illegalArgument` or `singularMatrix`, and on operands of rank at least 2 (the only ones
`gesv` hands it) it returns the two working copies as the loop left them. -/
theorem helper_checks_zero_vector {α : Type} [Inhabited α] (kernel : Kernel α)
    (self A : Tensor α) :
    (∀ x ∈ List.replicate (batchCount A) (0 : Int), x = 0) ∧
    (∀ i a, (_gesv_helper_cpu kernel self A).result ≠ .error (.illegalArgument i a)) ∧
    (∀ i r c, (_gesv_helper_cpu kernel self A).result ≠ .error (.singularMatrix i r c)) ∧
    (∀ st, applyGesv kernel (cloneBatchedColumnMajor self) (cloneBatchedColumnMajor A)
          (List.replicate (batchCount A) (0 : Int)) = .ok st →
      _gesv_helper_cpu kernel self A =
        { calls := st.calls
          result := (checkErrors (List.replicate (batchCount A) (0 : Int))).map
            (fun _ => (st.b, st.A)) } ∧
      (_gesv_helper_cpu kernel self A).result = .ok (st.b, st.A)) ∧
    (∀ (preA preB : List Nat) (n c r nrhs : Nat),
      A.sizes = preA ++ [n, c] → self.sizes = preB ++ [r, nrhs] →
      ∃ st, applyGesv kernel (cloneBatchedColumnMajor self) (cloneBatchedColumnMajor A)
          (List.replicate (batchCount A) (0 : Int)) = .ok st ∧
        (_gesv_helper_cpu kernel self A).result = .ok (st.b, st.A)) := by
  have hok : ∀ st, applyGesv kernel (cloneBatchedColumnMajor self) (cloneBatchedColumnMajor A)
          (List.replicate (batchCount A) (0 : Int)) = .ok st →
      _gesv_helper_cpu kernel self A =
        { calls := st.calls
          result := (checkErrors (List.replicate (batchCount A) (0 : Int))).map
            (fun _ => (st.b, st.A)) } ∧
      (_gesv_helper_cpu kernel self A).result = .ok (st.b, st.A) := by
    intro st hst
    have h1 : _gesv_helper_cpu kernel self A =
        { calls := st.calls
          result := (checkErrors (List.replicate (batchCount A) (0 : Int))).map
            (fun _ => (st.b, st.A)) } := by
      unfold _gesv_helper_cpu
      simp only [hst, checkErrors_replicate_zero]
      rfl
    refine ⟨h1, ?_⟩
    rw [h1, checkErrors_replicate_zero]
    rfl
  have hres : ∀ e, (_gesv_helper_cpu kernel self A).result = .error e →
      ∃ d k, e = .dimOutOfRange d k := by
    intro e he
    rcases hap : applyGesv kernel (cloneBatchedColumnMajor self) (cloneBatchedColumnMajor A)
          (List.replicate (batchCount A) (0 : Int)) with e2 | st
    · have h2 : (_gesv_helper_cpu kernel self A).result = .error e2 := by
        unfold _gesv_helper_cpu
        simp only [hap]
      rw [h2] at he
      cases he
      exact applyGesv_error_kind kernel _ _ _ _ hap
    · rw [(hok st hap).2] at he
      cases he
  refine ⟨fun x hx => List.eq_of_mem_replicate hx, ?_, ?_, hok, ?_⟩
  · intro i a h
    obtain ⟨d, k, hd⟩ := hres _ h
    cases hd
  · intro i r c h
    obtain ⟨d, k, hd⟩ := hres _ h
    cases hd
  · intro preA preB n c r nrhs hA hB
    have hap := applyGesv_eq kernel (cloneBatchedColumnMajor self) (cloneBatchedColumnMajor A)
      (List.replicate (batchCount A) (0 : Int)) preA preB n c r nrhs
      (cloneBatchedColumnMajor_sizes A preA n c hA)
      (cloneBatchedColumnMajor_sizes self preB r nrhs hB)
    exact ⟨_, hap, (hok _ hap).2⟩

/-! ## Arguments and shapes on the single-matrix path -/

theorem singleResult_sizes {α : Type} [Inhabited α] (kernel : Kernel α) (self A : Tensor α)
    (bx by_ r c : Nat) (hA : A.sizes = [r, c]) :
    (singleResult kernel self A bx by_).1.sizes = [bx, by_] ∧
    (singleResult kernel self A bx by_).2.sizes = [r, c] := by
  simp [singleResult, Tensor.t, Tensor.transposeLast, Tensor.clone, Tensor.view2, swapLastTwo,
    hA]

/-- C17: on the single-matrix path with an n-by-n A, a 1-D B of length n is solved as one
column: the single kernel call has `nrhs = 1`, and when the kernel succeeds the returned
solution has shape (n, 1) and the factors shape (n, n); a 2-D B of shape (n, m) gives a
solution of shape (n, m) and factors of shape (n, n). -/
theorem single_helper_shapes {α : Type} [Inhabited α] (kernel : Kernel α) (self A : Tensor α)
    (n : Nat) (hA : A.sizes = [n, n]) :
    (self.sizes = [n] →
      ∃ call, (_gesv_single_helper kernel self A).calls = [call] ∧ call.args.nrhs = 1 ∧
        ((kernel call.args).info = 0 →
          ∃ pair, (_gesv_single_helper kernel self A).result = .ok pair ∧
            pair.1.sizes = [n, 1] ∧ pair.2.sizes = [n, n])) ∧
    (∀ m, self.sizes = [n, m] →
      ∃ call, (_gesv_single_helper kernel self A).calls = [call] ∧
        ((kernel call.args).info = 0 →
          ∃ pair, (_gesv_single_helper kernel self A).result = .ok pair ∧
            pair.1.sizes = [n, m] ∧ pair.2.sizes = [n, n])) := by
  constructor
  · intro hB
    have hbx : self.size 0 = .ok n := size_zero self n [] hB
    have hby : (if self.dim = 1 then .ok 1 else self.size 1 : Except GesvError Nat) = .ok 1 := by
      have : self.dim = 1 := by simp [Tensor.dim, hB]
      rw [if_pos this]
    rw [single_helper_eq kernel self A n 1 hbx hby]
    refine ⟨⟨0, 0, singleArgs self A n 1⟩, rfl, ?_, ?_⟩
    · show narrowInt ((1 : Nat) : Int) = 1
      exact narrowInt_of_lt 1 (by norm_num)
    · intro h0
      dsimp only at h0 ⊢
      rw [if_pos h0]
      exact ⟨_, rfl, singleResult_sizes kernel self A n 1 n n hA⟩
  · intro m hB
    have hbx : self.size 0 = .ok n := size_zero self n [m] hB
    have hdim : self.dim = 2 := by simp [Tensor.dim, hB]
    have hby : (if self.dim = 1 then .ok 1 else self.size 1 : Except GesvError Nat) = .ok m := by
      have : ¬ self.dim = 1 := by omega
      rw [if_neg this, size_one_ok self (by omega), hB]
      rfl
    rw [single_helper_eq kernel self A n m hbx hby]
    refine ⟨⟨0, 0, singleArgs self A n m⟩, rfl, ?_⟩
    intro h0
    dsimp only at h0 ⊢
    rw [if_pos h0]
    exact ⟨_, rfl, singleResult_sizes kernel self A n m n n hA⟩

/-- Witness for `single_helper_shapes`: the 1-by-1 system with coefficient -1. -/
theorem single_helper_shapes_witness :
    ((⟨[1], [1], [5]⟩ : Tensor Int).sizes = [1] →
      ∃ call, (_gesv_single_helper unitKernel ⟨[1], [1], [5]⟩
          ⟨[1, 1], [1, 1], [-1]⟩).calls = [call] ∧ call.args.nrhs = 1 ∧
        ((unitKernel call.args).info = 0 →
          ∃ pair, (_gesv_single_helper unitKernel ⟨[1], [1], [5]⟩
              ⟨[1, 1], [1, 1], [-1]⟩).result = .ok pair ∧
            pair.1.sizes = [1, 1] ∧ pair.2.sizes = [1, 1])) ∧
    (∀ m, (⟨[1], [1], [5]⟩ : Tensor Int).sizes = [1, m] →
      ∃ call, (_gesv_single_helper unitKernel ⟨[1], [1], [5]⟩
          ⟨[1, 1], [1, 1], [-1]⟩).calls = [call] ∧
        ((unitKernel call.args).info = 0 →
          ∃ pair, (_gesv_single_helper unitKernel ⟨[1], [1], [5]⟩
              ⟨[1, 1], [1, 1], [-1]⟩).result = .ok pair ∧
            pair.1.sizes = [1, m] ∧ pair.2.sizes = [1, 1])) :=
  single_helper_shapes unitKernel ⟨[1], [1], [5]⟩ ⟨[1, 1], [1, 1], [-1]⟩ 1 rfl

/-- C15, as stated, fails: for the 1-by-1 matrix A = [1] and a 2-D B with one row and
2^31 columns, validation (batched = false) passes and `B.size(1) = 2^31`, but the kernel
is called with `nrhs = -2^31`: the `int` parameter of `lapackGesv` receives the `int64_t`
value reduced to 32 bits. -/
theorem single_call_nrhs_wraps :
    checkInputs (⟨[1, 2 ^ 31], [2 ^ 31, 1], List.replicate (2 ^ 31) 0⟩ : Tensor Int)
      ⟨[1, 1], [1, 1], [1]⟩ false = .ok () ∧
    (⟨[1, 2 ^ 31], [2 ^ 31, 1], List.replicate (2 ^ 31) 0⟩ : Tensor Int).size 1
      = .ok (2 ^ 31) ∧
    (_gesv_single_helper unitKernel ⟨[1, 2 ^ 31], [2 ^ 31, 1], List.replicate (2 ^ 31) 0⟩
      ⟨[1, 1], [1, 1], [1]⟩).calls.map (fun c => c.args.nrhs) = [-2 ^ 31] := by
  refine ⟨by decide, by decide, ?_⟩
  rw [single_helper_eq unitKernel _ _ 1 (2 ^ 31) (by decide) (by decide)]
  show [narrowInt ((2 ^ 31 : Nat) : Int)] = [-2 ^ 31]
  decide

/-- C15 (amended): for a 2-D A of shape (r, c) and B of rank 1 or 2 with leading dimension
b0, accepted by `checkInputs` with the flag clear, `b0` equals the order of A
(`r = c = b0`), and the single kernel call has `n`, `lda`, `ldb` all equal to `b0`
converted to `int`, a pivot buffer of length `b0`, and for a 2-D B with `m` columns
`nrhs` equal to `m` converted to `int`; the converted values are `b0` and `m`
themselves whenever these are below 2^31. -/
theorem single_call_arguments {α : Type} [Inhabited α] (kernel : Kernel α) (self A : Tensor α)
    (r c b0 : Nat) (rest : List Nat)
    (hA : A.sizes = [r, c]) (hB : self.sizes = b0 :: rest) (hrank : rest.length ≤ 1)
    (hv : checkInputs self A false = .ok ()) :
    (r = c ∧ r = b0) ∧
    ∃ call, (_gesv_single_helper kernel self A).calls = [call] ∧
      call.args.n = narrowInt b0 ∧ call.args.lda = narrowInt b0 ∧
      call.args.ldb = narrowInt b0 ∧ call.args.ipiv.length = b0 ∧
      (b0 < 2 ^ 31 → call.args.n = r ∧ call.args.lda = r ∧ call.args.ldb = r) ∧
      (∀ m, rest = [m] →
        call.args.nrhs = narrowInt m ∧ (m < 2 ^ 31 → call.args.nrhs = m)) := by
  have hA1 : A.size (-1) = .ok c := size_last A [] r c hA
  have hA2 : A.size (-2) = .ok r := size_secondLast A [] r c hA
  have hA0 : A.size 0 = .ok r := size_zero A r [c] hA
  have hbx : self.size 0 = .ok b0 := size_zero self b0 rest hB
  obtain ⟨k, h1, h2, h3, -⟩ := checkInputs_single_ok self A hv
  have hrc : r = c := by
    rw [hA1] at h1
    rw [hA2] at h2
    cases h1
    cases h2
    rfl
  have hrb : r = b0 := by
    rw [hA0, hbx] at h3
    cases h3
    rfl
  refine ⟨⟨hrc, hrb⟩, ?_⟩
  have hdim : self.dim = rest.length + 1 := by simp [Tensor.dim, hB]
  obtain ⟨by_, hby⟩ := single_helper_by self b0 (by omega) hbx
  rw [single_helper_eq kernel self A b0 by_ hbx hby]
  refine ⟨⟨0, 0, singleArgs self A b0 by_⟩, rfl, rfl, rfl, rfl, ?_, ?_, ?_⟩
  · simp [singleArgs]
  · intro hlt
    have := narrowInt_of_lt b0 hlt
    subst hrb
    exact ⟨this, this, this⟩
  · intro m hm
    subst hm
    have hne : ¬ self.dim = 1 := by simp [hdim]
    rw [if_neg hne, size_one_ok self (by simp [hdim]), hB] at hby
    have hbm : by_ = m := by
      cases hby
      rfl
    subst hbm
    exact ⟨rfl, fun hlt => narrowInt_of_lt _ hlt⟩

/-- Witness for `single_call_arguments`: a 2-by-2 A with a 2-by-3 B. -/
theorem single_call_arguments_witness :
    (2 = 2 ∧ 2 = 2) ∧
    ∃ call, (_gesv_single_helper unitKernel ⟨[2, 3], [3, 1], [1, 2, 3, 4, 5, 6]⟩
        ⟨[2, 2], [2, 1], [1, 0, 0, 1]⟩).calls = [call] ∧
      call.args.n = narrowInt (2 : Nat) ∧ call.args.lda = narrowInt (2 : Nat) ∧
      call.args.ldb = narrowInt (2 : Nat) ∧ call.args.ipiv.length = 2 ∧
      (2 < 2 ^ 31 → call.args.n = (2 : Nat) ∧ call.args.lda = (2 : Nat) ∧
        call.args.ldb = (2 : Nat)) ∧
      (∀ m, [3] = [m] →
        call.args.nrhs = narrowInt (m : Nat) ∧ (m < 2 ^ 31 → call.args.nrhs = (m : Nat))) :=
  single_call_arguments unitKernel ⟨[2, 3], [3, 1], [1, 2, 3, 4, 5, 6]⟩
    ⟨[2, 2], [2, 1], [1, 0, 0, 1]⟩ 2 2 2 [3] rfl rfl (by decide) (by decide)

/-! ## The run of the batch loop -/

theorem narrowInt_toNat_le (x : Nat) : (narrowInt x).toNat ≤ x := by
  unfold narrowInt
  omega

theorem window_length_le {α : Type} (buf : List α) (off len : Nat) :
    (window buf off len).length ≤ len := by
  simp [window]

theorem overwrite_length {α : Type} (buf : List α) (off len : Nat) (w : List α) :
    (overwrite buf off len w).length = buf.length := by
  simp [overwrite, window]
  omega

theorem overwrite_drop {α : Type} (buf : List α) (off len : Nat) (w : List α) (k : Nat)
    (hk : off + len ≤ k) : (overwrite buf off len w).drop k = buf.drop k := by
  by_cases hlong : off + len ≤ buf.length
  · have hpre : (buf.take off ++
        (w.take (window buf off len).length ++ (window buf off len).drop w.length)).length
        = off + len := by
      simp [window]
      omega
    unfold overwrite
    simp only []
    rw [List.drop_append_eq_append_drop, hpre, List.drop_drop]
    have h1 : List.drop k (buf.take off ++
        (w.take (window buf off len).length ++ (window buf off len).drop w.length)) = [] := by
      apply List.drop_eq_nil_of_le
      omega
    rw [h1, List.nil_append]
    congr 1
    omega
  · have hlen := overwrite_length buf off len w
    rw [List.drop_eq_nil_of_le (by omega), List.drop_eq_nil_of_le (by omega)]

theorem window_eq_of_drop_eq {α : Type} (buf1 buf2 : List α) (off off2 len : Nat)
    (h : buf1.drop off = buf2.drop off) (hle : off ≤ off2) :
    window buf1 off2 len = window buf2 off2 len := by
  unfold window
  have h2 : buf1.drop off2 = buf2.drop off2 := by
    have e : off2 = off + (off2 - off) := by omega
    rw [e, ← List.drop_drop, ← List.drop_drop, h]
  rw [h2]

/-- The loop started at iteration `i` in the state reached after `i` calls stops in the
state reached after `m` calls, where `m - 1` is the first iteration from `i` on with a
non-zero status, or `m = i + rem` when there is none. -/
theorem loop_run {α : Type} (kernel : Kernel α) (sA sB n nrhs : Nat) (st0 : LoopState α) :
    ∀ rem i, ∃ m, i ≤ m ∧ m ≤ i + rem ∧ (0 < rem → i < m) ∧
      applyGesvLoop kernel sA sB n nrhs rem i (stateAfter kernel sA sB n nrhs st0 i)
        = stateAfter kernel sA sB n nrhs st0 m ∧
      (∀ k, i ≤ k → k + 1 < m → statusAt kernel sA sB n nrhs st0 k = 0) ∧
      (m < i + rem → i < m ∧ statusAt kernel sA sB n nrhs st0 (m - 1) ≠ 0) := by
  intro rem
  induction rem with
  | zero =>
    intro i
    exact ⟨i, le_refl i, le_refl i, fun h => absurd h (lt_irrefl 0), rfl,
      fun k h1 h2 => by omega, fun h => by omega⟩
  | succ rem ih =>
    intro i
    by_cases hs : statusAt kernel sA sB n nrhs st0 i = 0
    · obtain ⟨m, h1, h2, -, h4, h5, h6⟩ := ih (i + 1)
      refine ⟨m, by omega, by omega, fun _ => by omega, ?_, ?_, ?_⟩
      · rw [← h4]
        have hs2 : ¬ (lapackGesv kernel (loopArgs sA sB n nrhs i
            (stateAfter kernel sA sB n nrhs st0 i))).info ≠ 0 := by
          intro h
          exact h hs
        simp only [applyGesvLoop]
        rw [if_neg hs2]
        rfl
      · intro k hk1 hk2
        by_cases hki : k = i
        · rw [hki]
          exact hs
        · exact h5 k (by omega) hk2
      · intro hlt
        obtain ⟨h7, h8⟩ := h6 (by omega)
        exact ⟨by omega, h8⟩
    · refine ⟨i + 1, by omega, by omega, fun _ => by omega, ?_, ?_, ?_⟩
      · have hs2 : (lapackGesv kernel (loopArgs sA sB n nrhs i
            (stateAfter kernel sA sB n nrhs st0 i))).info ≠ 0 := hs
        simp only [applyGesvLoop]
        rw [if_pos hs2]
        rfl
      · intro k hk1 hk2
        omega
      · intro _
        exact ⟨by omega, by simpa using hs⟩

theorem stateAfter_calls {α : Type} (kernel : Kernel α) (sA sB n nrhs : Nat)
    (st0 : LoopState α) (m : Nat) :
    (stateAfter kernel sA sB n nrhs st0 m).calls =
      st0.calls ++ (List.range m).map (callAt kernel sA sB n nrhs st0) := by
  induction m with
  | zero => simp [stateAfter]
  | succ m ih =>
    rw [List.range_succ, List.map_append, ← List.append_assoc, ← ih]
    rfl

theorem stateAfter_infos_length {α : Type} (kernel : Kernel α) (sA sB n nrhs : Nat)
    (st0 : LoopState α) (m : Nat) :
    (stateAfter kernel sA sB n nrhs st0 m).infos.length = st0.infos.length := by
  induction m with
  | zero => rfl
  | succ m ih => simp only [stateAfter, loopStep, List.length_set, ih]

theorem stateAfter_infos_recorded {α : Type} (kernel : Kernel α) (sA sB n nrhs : Nat)
    (st0 : LoopState α) (m i : Nat) (hi : i < m) (hlen : i < st0.infos.length) :
    (stateAfter kernel sA sB n nrhs st0 m).infos.getD i 0 =
      statusAt kernel sA sB n nrhs st0 i := by
  induction m with
  | zero => omega
  | succ m ih =>
    have hl := stateAfter_infos_length kernel sA sB n nrhs st0 m
    simp only [stateAfter, loopStep, List.getD_eq_getElem?_getD]
    by_cases him : i = m
    · subst him
      rw [List.getElem?_set_self (by omega)]
      rfl
    · rw [List.getElem?_set_ne (by omega), ← List.getD_eq_getElem?_getD]
      exact ih (by omega)

theorem stateAfter_infos_kept {α : Type} (kernel : Kernel α) (sA sB n nrhs : Nat)
    (st0 : LoopState α) (m i : Nat) (hi : m ≤ i) :
    (stateAfter kernel sA sB n nrhs st0 m).infos.getD i 0 = st0.infos.getD i 0 := by
  induction m with
  | zero => rfl
  | succ m ih =>
    simp only [stateAfter, loopStep, List.getD_eq_getElem?_getD]
    rw [List.getElem?_set_ne (by omega), ← List.getD_eq_getElem?_getD,
      ← List.getD_eq_getElem?_getD]
    exact ih (by omega)

theorem stateAfter_A_drop {α : Type} (kernel : Kernel α) (sA sB n nrhs : Nat)
    (st0 : LoopState α) (m : Nat)
    (hfoot : (narrowInt n).toNat * (narrowInt n).toNat ≤ sA) :
    (stateAfter kernel sA sB n nrhs st0 m).A.storage.drop (m * sA) =
      st0.A.storage.drop (m * sA) := by
  induction m with
  | zero => rfl
  | succ m ih =>
    have hwin := window_length_le (stateAfter kernel sA sB n nrhs st0 m).A.storage (m * sA)
      ((narrowInt n).toNat * (narrowInt n).toNat)
    have hstep : (stateAfter kernel sA sB n nrhs st0 (m + 1)).A.storage.drop ((m + 1) * sA) =
        (stateAfter kernel sA sB n nrhs st0 m).A.storage.drop ((m + 1) * sA) := by
      simp only [stateAfter, loopStep, loopArgs]
      apply overwrite_drop
      have : (m + 1) * sA = m * sA + sA := by ring
      omega
    rw [hstep]
    have e : (m + 1) * sA = m * sA + sA := by ring
    rw [e, ← List.drop_drop, ← List.drop_drop, ih]

theorem stateAfter_b_drop {α : Type} (kernel : Kernel α) (sA sB n nrhs : Nat)
    (st0 : LoopState α) (m : Nat)
    (hfoot : (narrowInt n).toNat * (narrowInt nrhs).toNat ≤ sB) :
    (stateAfter kernel sA sB n nrhs st0 m).b.storage.drop (m * sB) =
      st0.b.storage.drop (m * sB) := by
  induction m with
  | zero => rfl
  | succ m ih =>
    have hwin := window_length_le (stateAfter kernel sA sB n nrhs st0 m).b.storage (m * sB)
      ((narrowInt n).toNat * (narrowInt nrhs).toNat)
    have hstep : (stateAfter kernel sA sB n nrhs st0 (m + 1)).b.storage.drop ((m + 1) * sB) =
        (stateAfter kernel sA sB n nrhs st0 m).b.storage.drop ((m + 1) * sB) := by
      simp only [stateAfter, loopStep, loopArgs]
      apply overwrite_drop
      have : (m + 1) * sB = m * sB + sB := by ring
      omega
    rw [hstep]
    have e : (m + 1) * sB = m * sB + sB := by ring
    rw [e, ← List.drop_drop, ← List.drop_drop, ih]

theorem footprint_A_le (n : Nat) :
    (narrowInt n).toNat * (narrowInt n).toNat ≤ n * n :=
  Nat.mul_le_mul (narrowInt_toNat_le n) (narrowInt_toNat_le n)

theorem footprint_b_le (n nrhs : Nat) :
    (narrowInt n).toNat * (narrowInt nrhs).toNat ≤ nrhs * n := by
  rw [Nat.mul_comm nrhs n]
  exact Nat.mul_le_mul (narrowInt_toNat_le n) (narrowInt_toNat_le nrhs)

/-- The run of `applyGesv` on two tensors of rank at least 2: it ends in the state reached
after `m` kernel calls, `m` being at most the batch count, positive when the batch is not
empty, with zero statuses before call `m - 1` and a non-zero status at call `m - 1` when
`m` is below the batch count. -/
theorem applyGesv_stops {α : Type} (kernel : Kernel α) (b A : Tensor α) (infos : List Int)
    (preA preB : List Nat) (n c r nrhs : Nat)
    (hA : A.sizes = preA ++ [n, c]) (hB : b.sizes = preB ++ [r, nrhs]) :
    ∃ m, applyGesv kernel b A infos =
        .ok (stateAfter kernel (c * n) (nrhs * r) n nrhs
          { b := b, A := A, infos := infos, ipiv := List.replicate n (0 : Int), calls := [] }
          m) ∧
      m ≤ batchCount A ∧ (0 < batchCount A → 0 < m) ∧
      (∀ i, i + 1 < m → statusAt kernel (c * n) (nrhs * r) n nrhs
          { b := b, A := A, infos := infos, ipiv := List.replicate n (0 : Int), calls := [] }
          i = 0) ∧
      (m < batchCount A → 0 < m ∧ statusAt kernel (c * n) (nrhs * r) n nrhs
          { b := b, A := A, infos := infos, ipiv := List.replicate n (0 : Int), calls := [] }
          (m - 1) ≠ 0) := by
  obtain ⟨m, -, h2, h3, h4, h5, h6⟩ := loop_run kernel (c * n) (nrhs * r) n nrhs
    { b := b, A := A, infos := infos, ipiv := List.replicate n (0 : Int), calls := [] }
    preA.prod 0
  have hcount := batchCount_of_sizes A preA n c hA
  refine ⟨m, ?_, by omega, by omega, fun i hi => h5 i (Nat.zero_le i) hi, ?_⟩
  · rw [applyGesv_eq kernel b A infos preA preB n c r nrhs hA hB, ← h4]
    rfl
  · intro hlt
    exact h6 (by omega)

/-- C12: on tensors of rank at least 2, `applyGesv` makes `m` kernel calls, call number
`i` being the one of batch index `i` (offsets `i` strides), for `i = 0, ..., m - 1` in
this order and no others; every status before the last call is zero, the last one is
non-zero unless `m` is the batch count (`j = m - 1` is the least index with a non-zero
status, or the last index). In its own status vector the entries below `m` hold the
returned statuses and every later entry keeps its initial value; and when A is square
with as many rows as B, the windows of A and b of every index from `m` on are as they
were at the start. -/
theorem applyGesv_trace {α : Type} (kernel : Kernel α) (b A : Tensor α) (infos : List Int)
    (preA preB : List Nat) (n c r nrhs : Nat)
    (hA : A.sizes = preA ++ [n, c]) (hB : b.sizes = preB ++ [r, nrhs]) :
    ∃ m st, applyGesv kernel b A infos = .ok st ∧
      st = stateAfter kernel (c * n) (nrhs * r) n nrhs
            { b := b, A := A, infos := infos, ipiv := List.replicate n (0 : Int), calls := [] } m ∧
      m ≤ batchCount A ∧ (0 < batchCount A → 0 < m) ∧
      (∀ i, i + 1 < m →
        statusAt kernel (c * n) (nrhs * r) n nrhs
            { b := b, A := A, infos := infos, ipiv := List.replicate n (0 : Int), calls := [] } i = 0) ∧
      (m < batchCount A → 0 < m ∧
        statusAt kernel (c * n) (nrhs * r) n nrhs
            { b := b, A := A, infos := infos, ipiv := List.replicate n (0 : Int), calls := [] } (m - 1) ≠ 0) ∧
      st.calls = (List.range m).map
        (callAt kernel (c * n) (nrhs * r) n nrhs
            { b := b, A := A, infos := infos, ipiv := List.replicate n (0 : Int), calls := [] }) ∧
      (∀ i, i < m → i < (infos : List Int).length → st.infos.getD i 0 =
        statusAt kernel (c * n) (nrhs * r) n nrhs
            { b := b, A := A, infos := infos, ipiv := List.replicate n (0 : Int), calls := [] } i) ∧
      (∀ i, m ≤ i → st.infos.getD i 0 = (infos : List Int).getD i 0) ∧
      (c = n → r = n → ∀ k, m ≤ k →
        window st.A.storage (k * (c * n)) (c * n) =
          window (A).storage (k * (c * n)) (c * n) ∧
        window st.b.storage (k * (nrhs * r)) (nrhs * r) =
          window (b).storage (k * (nrhs * r)) (nrhs * r)) := by
  obtain ⟨m, h1, h2, h3, h4, h5⟩ :=
    applyGesv_stops kernel b A infos preA preB n c r nrhs hA hB
  refine ⟨m, _, h1, rfl, h2, h3, h4, h5, ?_, ?_, ?_, ?_⟩
  · rw [stateAfter_calls]
    rfl
  · intro i hi hlen
    exact stateAfter_infos_recorded kernel _ _ n nrhs _ m i hi hlen
  · intro i hi
    exact stateAfter_infos_kept kernel _ _ n nrhs _ m i hi
  · intro hc hr k hk
    have hdA := stateAfter_A_drop kernel (c * n) (nrhs * r) n nrhs
      { b := b, A := A, infos := infos, ipiv := List.replicate n (0 : Int), calls := [] } m
      (by rw [hc]; exact footprint_A_le n)
    have hdb := stateAfter_b_drop kernel (c * n) (nrhs * r) n nrhs
      { b := b, A := A, infos := infos, ipiv := List.replicate n (0 : Int), calls := [] } m
      (by rw [hr]; exact footprint_b_le n nrhs)
    exact ⟨window_eq_of_drop_eq _ _ _ _ _ hdA (Nat.mul_le_mul_right _ hk),
      window_eq_of_drop_eq _ _ _ _ _ hdb (Nat.mul_le_mul_right _ hk)⟩

/-- Witness for `applyGesv_trace`: the matrices [1], [0], [-1] with the right-hand sides
[5], [6], [7]. -/
theorem applyGesv_trace_witness :
    ∃ m st, applyGesv unitKernel rhs3 mats3 [0, 0, 0] = .ok st ∧
      st = stateAfter unitKernel (1 * 1) (1 * 1) 1 1
            { b := rhs3, A := mats3, infos := [0, 0, 0], ipiv := List.replicate 1 (0 : Int), calls := [] } m ∧
      m ≤ batchCount mats3 ∧ (0 < batchCount mats3 → 0 < m) ∧
      (∀ i, i + 1 < m →
        statusAt unitKernel (1 * 1) (1 * 1) 1 1
            { b := rhs3, A := mats3, infos := [0, 0, 0], ipiv := List.replicate 1 (0 : Int), calls := [] } i = 0) ∧
      (m < batchCount mats3 → 0 < m ∧
        statusAt unitKernel (1 * 1) (1 * 1) 1 1
            { b := rhs3, A := mats3, infos := [0, 0, 0], ipiv := List.replicate 1 (0 : Int), calls := [] } (m - 1) ≠ 0) ∧
      st.calls = (List.range m).map
        (callAt unitKernel (1 * 1) (1 * 1) 1 1
            { b := rhs3, A := mats3, infos := [0, 0, 0], ipiv := List.replicate 1 (0 : Int), calls := [] }) ∧
      (∀ i, i < m → i < ([0, 0, 0] : List Int).length → st.infos.getD i 0 =
        statusAt unitKernel (1 * 1) (1 * 1) 1 1
            { b := rhs3, A := mats3, infos := [0, 0, 0], ipiv := List.replicate 1 (0 : Int), calls := [] } i) ∧
      (∀ i, m ≤ i → st.infos.getD i 0 = ([0, 0, 0] : List Int).getD i 0) ∧
      (1 = 1 → 1 = 1 → ∀ k, m ≤ k →
        window st.A.storage (k * (1 * 1)) (1 * 1) =
          window mats3.storage (k * (1 * 1)) (1 * 1) ∧
        window st.b.storage (k * (1 * 1)) (1 * 1) =
          window rhs3.storage (k * (1 * 1)) (1 * 1)) :=
  applyGesv_trace unitKernel rhs3
    mats3 [0, 0, 0] [3] [3] 1 1 1 1 rfl rfl

theorem expandStridesRev_nil (ts : List Nat) :
    ∃ st, expandStridesRev [] [] ts = .ok st := by
  induction ts with
  | nil => exact ⟨[], by simp [expandStridesRev]⟩
  | cons t ts ih =>
    obtain ⟨st, h⟩ := ih
    exact ⟨0 :: st, by simp [expandStridesRev, h]⟩

theorem expandStridesRev_sizes_nil (sts ts : List Nat) :
    ∃ st, expandStridesRev [] sts ts = .ok st := by
  cases ts with
  | nil => exact ⟨[], by simp [expandStridesRev]⟩
  | cons t ts =>
    obtain ⟨st, h⟩ := expandStridesRev_nil ts
    exact ⟨0 :: st, by simp [expandStridesRev, h]⟩

theorem expandStridesRev_strides_nil (ss ts : List Nat) :
    ∃ st, expandStridesRev ss [] ts = .ok st := by
  cases ts with
  | nil => exact ⟨[], by simp [expandStridesRev]⟩
  | cons t ts =>
    obtain ⟨st, h⟩ := expandStridesRev_nil ts
    exact ⟨0 :: st, by simp [expandStridesRev, h]⟩

theorem expandStridesRev_cons (s t : Nat) (ss sts ts : List Nat) (hst : s = t ∨ s = 1)
    (h : ∀ sts2, ∃ st, expandStridesRev ss sts2 ts = .ok st) :
    ∃ st, expandStridesRev (s :: ss) sts (t :: ts) = .ok st := by
  cases sts with
  | nil => exact expandStridesRev_strides_nil _ _
  | cons x sts =>
    obtain ⟨st, hrec⟩ := h sts
    by_cases h1 : s = t
    · exact ⟨x :: st, by simp [expandStridesRev, h1, hrec]⟩
    · have h2 : s = 1 := by
        rcases hst with h | h
        · exact absurd h h1
        · exact h
      subst h2
      exact ⟨0 :: st, by simp [expandStridesRev, h1, hrec]⟩

theorem expandStridesRev_self (l : List Nat) :
    ∀ sts, ∃ st, expandStridesRev l sts l = .ok st := by
  induction l with
  | nil => exact fun sts => expandStridesRev_sizes_nil sts []
  | cons x xs ih => exact fun sts => expandStridesRev_cons x x xs sts xs (Or.inl rfl) ih

theorem inferSizeRev_expand {a b r : List Nat} (h : inferSizeRev a b = .ok r) :
    (∀ sts, ∃ st, expandStridesRev a sts r = .ok st) ∧
    (∀ sts, ∃ st, expandStridesRev b sts r = .ok st) := by
  induction a generalizing b r with
  | nil =>
    have hr : r = b := by
      simp [inferSizeRev] at h
      exact h.symm
    subst hr
    exact ⟨fun sts => expandStridesRev_sizes_nil sts r, expandStridesRev_self r⟩
  | cons x xs ih =>
    cases b with
    | nil =>
      have hr : r = x :: xs := by
        simp [inferSizeRev] at h
        exact h.symm
      subst hr
      exact ⟨expandStridesRev_self _, fun sts => expandStridesRev_sizes_nil sts _⟩
    | cons y ys =>
      unfold inferSizeRev at h
      by_cases hc : x = y ∨ x = 1 ∨ y = 1
      · rw [if_pos hc] at h
        rcases hrec : inferSizeRev xs ys with e | rest
        · simp [hrec] at h
        · simp only [hrec] at h
          cases h
          obtain ⟨ih1, ih2⟩ := ih hrec
          constructor
          · intro sts
            apply expandStridesRev_cons _ _ _ _ _ _ ih1
            by_cases hx : x = 1
            · exact Or.inr hx
            · left
              simp [hx]
          · intro sts
            apply expandStridesRev_cons _ _ _ _ _ _ ih2
            by_cases hx : x = 1
            · left
              simp [hx]
            · rcases hc with h1 | h1 | h1
              · left
                simp [hx, h1]
              · exact absurd h1 hx
              · exact Or.inr h1
      · rw [if_neg hc] at h
        cases h

theorem checkInputs_batched_ok {α : Type} (self A : Tensor α)
    (h : checkInputs self A true = .ok ()) :
    ∃ n, A.size (-1) = .ok n ∧ A.size (-2) = .ok n ∧ self.size (-2) = .ok n ∧
      A.size 0 = self.size 0 := by
  unfold checkInputs at h
  rcases h1 : A.size (-1) with e | aLast
  · simp [h1, bind, Except.bind] at h
  rcases h2 : A.size (-2) with e | aSecond
  · simp [h1, h2, bind, Except.bind] at h
  by_cases hsq : aLast = aSecond
  swap
  · simp [h1, h2, hsq, bind, Except.bind, throw, throwThe, MonadExceptOf.throw, pure,
      Except.pure] at h
  subst hsq
  rcases h5 : self.size (-2) with e | bSecond
  · simp [h1, h2, h5, bind, Except.bind, throw, throwThe, MonadExceptOf.throw, pure,
      Except.pure] at h
  by_cases hmm : aLast = bSecond
  swap
  · rcases h6 : self.size (-1) with e | bLast <;>
      simp [h1, h2, h5, h6, hmm, bind, Except.bind, throw, throwThe, MonadExceptOf.throw, pure,
        Except.pure] at h
  subst hmm
  rcases h3 : A.size 0 with e | a0
  · simp [h1, h2, h3, h5, bind, Except.bind, throw, throwThe, MonadExceptOf.throw, pure,
      Except.pure] at h
  rcases h4 : self.size 0 with e | b0
  · simp [h1, h2, h3, h4, h5, bind, Except.bind, throw, throwThe, MonadExceptOf.throw, pure,
      Except.pure] at h
  by_cases hab : a0 = b0
  · subst hab
    exact ⟨aLast, rfl, rfl, rfl, rfl⟩
  · simp [h1, h2, h3, h4, h5, hab, bind, Except.bind, throw, throwThe, MonadExceptOf.throw,
      pure, Except.pure] at h

theorem expand_of_infer {α : Type} (t : Tensor α) (pre P : List Nat) (r c : Nat)
    (ht : t.sizes = pre ++ [r, c])
    (h : ∀ sts, ∃ st, expandStridesRev pre.reverse sts P.reverse = .ok st) :
    ∃ tb, t.expand (P ++ [r, c]) = .ok tb ∧ tb.sizes = P ++ [r, c] ∧
      tb.storage = t.storage := by
  have h1 : ∀ sts, ∃ st, expandStridesRev (r :: pre.reverse) sts (r :: P.reverse) = .ok st :=
    fun sts => expandStridesRev_cons r r _ sts _ (Or.inl rfl) h
  obtain ⟨st, hst⟩ := expandStridesRev_cons c c _ t.strides.reverse _ (Or.inl rfl) h1
  have hrev1 : t.sizes.reverse = c :: r :: pre.reverse := by simp [ht]
  have hrev2 : (P ++ [r, c]).reverse = c :: r :: P.reverse := by simp
  refine ⟨{ sizes := P ++ [r, c], strides := st.reverse, storage := t.storage }, ?_, rfl, rfl⟩
  unfold Tensor.expand
  rw [hrev1, hrev2, hst]

theorem drop_of_split (l suf : List Nat) (k : Nat) (h : l = l.take k ++ suf) :
    l.drop k = suf := by
  have h2 := List.take_append_drop k l
  have h3 : l.take k ++ l.drop k = l.take k ++ suf := by
    rw [h2]
    exact h
  exact List.append_cancel_left h3

/-- The batched path of `gesv` after a successful validation: the shapes split into batch
prefix and matrix dimensions, a failure of `infer_size` is the result, and otherwise both
expansions succeed and the result is the one of the batched helper on the expanded
operands. -/
theorem gesv_batched_path {α : Type} [Inhabited α] (kernel : Kernel α) (self A : Tensor α)
    (hb : ¬ (self.dim ≤ 2 ∧ A.dim ≤ 2)) (hv : checkInputs self A true = .ok ()) :
    ∃ r nrhs n c,
      self.sizes = self.sizes.take (self.dim - 2) ++ [r, nrhs] ∧
      A.sizes = A.sizes.take (A.dim - 2) ++ [n, c] ∧ c = n ∧ r = n ∧
      (∀ e, infer_size (self.sizes.take (self.dim - 2)) (A.sizes.take (A.dim - 2)) = .error e →
        gesv kernel self A = { calls := [], result := .error e }) ∧
      (∀ P, infer_size (self.sizes.take (self.dim - 2)) (A.sizes.take (A.dim - 2)) = .ok P →
        ∃ sb ab, self.expand (P ++ [r, nrhs]) = .ok sb ∧ A.expand (P ++ [n, c]) = .ok ab ∧
          sb.sizes = P ++ [r, nrhs] ∧ ab.sizes = P ++ [n, c] ∧
          gesv kernel self A = _gesv_helper_cpu kernel sb ab) := by
  obtain ⟨k, hA1, hA2, hB2, -⟩ := checkInputs_batched_ok self A hv
  obtain ⟨r, nrhs, hBs⟩ := sizes_split self.sizes (size_secondLast_dim self k hB2)
  obtain ⟨n, c, hAs⟩ := sizes_split A.sizes (size_secondLast_dim A k hA2)
  have hBs2 : self.sizes = self.sizes.take (self.dim - 2) ++ [r, nrhs] := hBs
  have hAs2 : A.sizes = A.sizes.take (A.dim - 2) ++ [n, c] := hAs
  have hc : c = n := by
    have e1 := size_last A _ n c hAs2
    have e2 := size_secondLast A _ n c hAs2
    rw [hA1] at e1
    rw [hA2] at e2
    cases e1
    cases e2
    rfl
  have hr : r = n := by
    have e1 := size_secondLast self _ r nrhs hBs2
    have e2 := size_secondLast A _ n c hAs2
    rw [hB2] at e1
    rw [hA2] at e2
    cases e1
    cases e2
    rfl
  have hflag : (!(decide (self.dim ≤ 2) && decide (A.dim ≤ 2))) = true := by
    rw [not_and_or] at hb
    rcases hb with hb | hb <;> simp [hb]
  refine ⟨r, nrhs, n, c, hBs2, hAs2, hc, hr, ?_, ?_⟩
  · intro e he
    unfold gesv
    simp only [hflag, hv, he, Bool.not_true, Bool.false_eq_true, if_false]
  · intro P hP
    have hrev : inferSizeRev (self.sizes.take (self.dim - 2)).reverse
        (A.sizes.take (A.dim - 2)).reverse = .ok P.reverse := by
      unfold infer_size at hP
      rcases hq : inferSizeRev (self.sizes.take (self.dim - 2)).reverse
          (A.sizes.take (A.dim - 2)).reverse with e | q
      · simp [hq] at hP
      · simp only [hq] at hP
        cases hP
        simp
    obtain ⟨hl, hrgt⟩ := inferSizeRev_expand hrev
    obtain ⟨sb, hsb, hsb1, -⟩ := expand_of_infer self _ P r nrhs hBs2 hl
    obtain ⟨ab, hab, hab1, -⟩ := expand_of_infer A _ P n c hAs2 hrgt
    refine ⟨sb, ab, hsb, hab, hsb1, hab1, ?_⟩
    unfold gesv
    simp only [hflag, hv, hP, Bool.not_true, Bool.false_eq_true, if_false,
      size_secondLast self _ r nrhs hBs2, size_last self _ r nrhs hBs2,
      size_secondLast A _ n c hAs2, size_last A _ n c hAs2, hsb, hab]

/-- C11: `gesv` validates first, with the flag "some rank exceeds 2": when `checkInputs`
fails, that failure is the result and the kernel is not invoked (nothing else has been
computed). After a successful validation the result is the one of `_gesv_single_helper`
when both ranks are at most 2, and otherwise the one of the batched pipeline: the
failure of `infer_size` on the batch prefixes, or `_gesv_helper_cpu` on the two expanded
operands. -/
theorem gesv_dispatch {α : Type} [Inhabited α] (kernel : Kernel α) (self A : Tensor α) :
    (∀ e, checkInputs self A (!(decide (self.dim ≤ 2) && decide (A.dim ≤ 2))) = .error e →
      gesv kernel self A = { calls := [], result := .error e }) ∧
    (checkInputs self A (!(decide (self.dim ≤ 2) && decide (A.dim ≤ 2))) = .ok () →
      ((self.dim ≤ 2 ∧ A.dim ≤ 2) →
        gesv kernel self A = _gesv_single_helper kernel self A) ∧
      (¬ (self.dim ≤ 2 ∧ A.dim ≤ 2) →
        (∀ e, infer_size (self.sizes.take (self.dim - 2)) (A.sizes.take (A.dim - 2))
            = .error e →
          gesv kernel self A = { calls := [], result := .error e }) ∧
        (∀ P, infer_size (self.sizes.take (self.dim - 2)) (A.sizes.take (A.dim - 2))
            = .ok P →
          ∃ sb ab, sb.sizes = P ++ self.sizes.drop (self.dim - 2) ∧
            ab.sizes = P ++ A.sizes.drop (A.dim - 2) ∧
            gesv kernel self A = _gesv_helper_cpu kernel sb ab))) := by
  refine ⟨fun e he => gesv_of_invalid kernel self A e he, ?_⟩
  intro hv
  constructor
  · intro hb
    have hflag : (!(decide (self.dim ≤ 2) && decide (A.dim ≤ 2))) = false := by
      simp [hb.1, hb.2]
    rw [hflag] at hv
    exact gesv_single_path kernel self A hb.1 hb.2 hv
  · intro hb
    have hflag : (!(decide (self.dim ≤ 2) && decide (A.dim ≤ 2))) = true := by
      have hb2 := hb
      rw [not_and_or] at hb2
      rcases hb2 with hb2 | hb2 <;> simp [hb2]
    rw [hflag] at hv
    obtain ⟨r, nrhs, n, c, hBs, hAs, -, -, herr, hok⟩ := gesv_batched_path kernel self A hb hv
    refine ⟨herr, ?_⟩
    intro P hP
    obtain ⟨sb, ab, -, -, hsb, hab, hg⟩ := hok P hP
    refine ⟨sb, ab, ?_, ?_, hg⟩
    · rw [hsb, drop_of_split self.sizes [r, nrhs] (self.dim - 2) hBs]
    · rw [hab, drop_of_split A.sizes [n, c] (A.dim - 2) hAs]

/-- C13: on the batched path, after a successful validation and with broadcastable batch
prefixes, `P` being `infer_size` of the prefix of B and the prefix of A, the two
expansions succeed with the shapes `P ++ [B.size(-2), B.size(-1)]` and
`P ++ [A.size(-2), A.size(-1)]`, and `gesv` is the batched helper on these operands; they
have the same batch count (the product of `P`) and the matrix dimensions of the
originals, and the status vector of the helper, sized by the batch count of A, has one
entry per matrix of B. -/
theorem gesv_broadcast_shapes {α : Type} [Inhabited α] (kernel : Kernel α) (self A : Tensor α)
    (P : List Nat) (hb : ¬ (self.dim ≤ 2 ∧ A.dim ≤ 2))
    (hv : checkInputs self A true = .ok ())
    (hP : infer_size (self.sizes.take (self.dim - 2)) (A.sizes.take (A.dim - 2)) = .ok P) :
    ∃ s2 s1 a2 a1 sb ab,
      self.size (-2) = .ok s2 ∧ self.size (-1) = .ok s1 ∧
      A.size (-2) = .ok a2 ∧ A.size (-1) = .ok a1 ∧
      self.expand (P ++ [s2, s1]) = .ok sb ∧ A.expand (P ++ [a2, a1]) = .ok ab ∧
      sb.sizes = P ++ [s2, s1] ∧ ab.sizes = P ++ [a2, a1] ∧
      gesv kernel self A = _gesv_helper_cpu kernel sb ab ∧
      batchCount sb = (P : List Nat).prod ∧ batchCount ab = (P : List Nat).prod ∧
      sb.size (-2) = .ok s2 ∧ sb.size (-1) = .ok s1 ∧
      ab.size (-2) = .ok a2 ∧ ab.size (-1) = .ok a1 ∧
      (List.replicate (batchCount ab) (0 : Int)).length = batchCount sb := by
  obtain ⟨r, nrhs, n, c, hBs, hAs, -, -, -, hok⟩ := gesv_batched_path kernel self A hb hv
  obtain ⟨sb, ab, hsb, hab, hsb1, hab1, hg⟩ := hok P hP
  refine ⟨r, nrhs, n, c, sb, ab, size_secondLast self _ r nrhs hBs, size_last self _ r nrhs hBs,
    size_secondLast A _ n c hAs, size_last A _ n c hAs, hsb, hab, hsb1, hab1, hg,
    batchCount_of_sizes sb P r nrhs hsb1, batchCount_of_sizes ab P n c hab1,
    size_secondLast sb P r nrhs hsb1, size_last sb P r nrhs hsb1,
    size_secondLast ab P n c hab1, size_last ab P n c hab1, ?_⟩
  rw [List.length_replicate, batchCount_of_sizes sb P r nrhs hsb1,
    batchCount_of_sizes ab P n c hab1]

/-- Witness for `gesv_broadcast_shapes`: A of shape (2,1,1,1) and B of shape (2,3,1,1),
with broadcast batch shape (2,3). -/
theorem gesv_broadcast_shapes_witness :
    ∃ s2 s1 a2 a1 sb ab,
      rhs23.size (-2) = .ok s2 ∧ rhs23.size (-1) = .ok s1 ∧
      mats21.size (-2) = .ok a2 ∧ mats21.size (-1) = .ok a1 ∧
      rhs23.expand ([2, 3] ++ [s2, s1]) = .ok sb ∧ mats21.expand ([2, 3] ++ [a2, a1]) = .ok ab ∧
      sb.sizes = [2, 3] ++ [s2, s1] ∧ ab.sizes = [2, 3] ++ [a2, a1] ∧
      gesv unitKernel rhs23 mats21 = _gesv_helper_cpu unitKernel sb ab ∧
      batchCount sb = ([2, 3] : List Nat).prod ∧ batchCount ab = ([2, 3] : List Nat).prod ∧
      sb.size (-2) = .ok s2 ∧ sb.size (-1) = .ok s1 ∧
      ab.size (-2) = .ok a2 ∧ ab.size (-1) = .ok a1 ∧
      (List.replicate (batchCount ab) (0 : Int)).length = batchCount sb :=
  gesv_broadcast_shapes unitKernel rhs23
    mats21 [2, 3] (by decide) (by decide) (by decide)

end Gesv
